import Mathlib

/-!
Verification of the double-entry accounting engine of this repository.

The repository contains two parallel implementations of the ledger core:
* `src/Desktop/app.py` (web application): name-keyed accounts holding dated
  debit/credit entries with `Decimal` amounts, plus trial balance, statements,
  straight-line depreciation and JSON persistence (`src/Desktop/storage.py`,
  with the simplified `Account` of `src/Desktop/models.py`).
* `src/Desktop/double_entry.py` (console application): code-keyed accounts,
  journal entries with validation, posting, closing and depreciation.

Conventions of the shallow embedding:
* `Decimal` amounts are embedded as exact rationals (`ℚ`) in the app model and
  as integer cents (`Int`) in the console model, where every amount flowing
  through `D(...)` is quantized to cents.  Python `Decimal` addition,
  subtraction and comparison are exact, so these embeddings are faithful for
  the verified operations; divisions are modelled with explicit quantization.
* `datetime.date` values are embedded as integers (`Int`): ISO-8601 calendar
  dates are totally ordered and only order and equality are used by the code.
* Python in-place mutation is embedded as explicit state passing.  A raised
  exception that leaves earlier in-place mutations visible is embedded as a
  pair `(Except ..., state)` whose state component keeps those mutations.
* Python `dict`s are embedded as insertion-ordered association lists; lookup
  takes the first binding, matching `dict` semantics for the duplicate-free
  key lists the programs build.
-/

/-- The five account types of both implementations
(`ACCOUNT_TYPES` in app.py/models.py, the `type` strings of double_entry.py). -/
inductive AccountType where
  | Asset
  | Liability
  | Equity
  | Revenue
  | Expense
deriving DecidableEq, Repr

/-- `ACCOUNT_TYPES` of app.py / models.py: the natural balance of each type. -/
def ACCOUNT_TYPES : AccountType → String
  | .Asset => "debit"
  | .Liability => "credit"
  | .Equity => "credit"
  | .Revenue => "credit"
  | .Expense => "debit"

/-- The Python name of an account type (used as a sort key in app.py's
`trial_balance`). -/
def AccountType.pyName : AccountType → String
  | .Asset => "Asset"
  | .Liability => "Liability"
  | .Equity => "Equity"
  | .Revenue => "Revenue"
  | .Expense => "Expense"

/-! ### Association lists (Python `dict`) -/

/-- First-binding lookup in an association list (Python `d[k]` / `d.get(k)`). -/
def alookup {κ α : Type} [DecidableEq κ] (k : κ) : List (κ × α) → Option α
  | [] => none
  | (k', v) :: rest => if k' = k then some v else alookup k rest

/-- Update the first binding of `k` (Python in-place mutation of `d[k]`). -/
def aupdate {κ α : Type} [DecidableEq κ] (k : κ) (f : α → α) : List (κ × α) → List (κ × α)
  | [] => []
  | (k', v) :: rest => if k' = k then (k', f v) :: rest else (k', v) :: aupdate k f rest

theorem alookup_aupdate_self {κ α : Type} [DecidableEq κ] (k : κ) (f : α → α) (m : List (κ × α)) :
    alookup k (aupdate k f m) = (alookup k m).map f := by
  induction m with
  | nil => rfl
  | cons p rest ih =>
    obtain ⟨k', v⟩ := p
    by_cases h : k' = k
    · simp [alookup, aupdate, h]
    · simp [alookup, aupdate, h, ih]

theorem alookup_aupdate_ne {κ α : Type} [DecidableEq κ] {k k' : κ} (f : α → α) (m : List (κ × α))
    (h : k ≠ k') : alookup k (aupdate k' f m) = alookup k m := by
  have h' : ¬ (k' = k) := fun hh => h hh.symm
  induction m with
  | nil => rfl
  | cons p rest ih =>
    obtain ⟨k₀, v⟩ := p
    by_cases h0 : k₀ = k'
    · subst h0
      simp [alookup, aupdate, h']
    · by_cases h1 : k₀ = k
      · subst h1
        simp [alookup, aupdate, h0]
      · simp [alookup, aupdate, h0, h1, ih]

theorem keys_aupdate {κ α : Type} [DecidableEq κ] (k : κ) (f : α → α) (m : List (κ × α)) :
    (aupdate k f m).map Prod.fst = m.map Prod.fst := by
  induction m with
  | nil => rfl
  | cons p rest ih =>
    obtain ⟨k', v⟩ := p
    by_cases h : k' = k
    · simp [aupdate, h]
    · simp [aupdate, h, ih]

theorem alookup_isSome_aupdate {κ α : Type} [DecidableEq κ] (k k' : κ) (f : α → α) (m : List (κ × α)) :
    (alookup k (aupdate k' f m)).isSome = (alookup k m).isSome := by
  by_cases h : k = k'
  · subst h; rw [alookup_aupdate_self]; cases alookup k m <;> rfl
  · rw [alookup_aupdate_ne f m h]

theorem alookup_mem_keys {κ α : Type} [DecidableEq κ] {k : κ} {m : List (κ × α)} {a : α}
    (h : alookup k m = some a) : k ∈ m.map Prod.fst := by
  induction m with
  | nil => simp [alookup] at h
  | cons p rest ih =>
    obtain ⟨k', v⟩ := p
    by_cases hk : k' = k
    · subst hk; simp
    · simp [alookup, hk] at h
      simp [ih h]

theorem alookup_eq_none_of_not_mem {κ α : Type} [DecidableEq κ] {k : κ} {m : List (κ × α)}
    (h : k ∉ m.map Prod.fst) : alookup k m = none := by
  induction m with
  | nil => rfl
  | cons p rest ih =>
    obtain ⟨k', v⟩ := p
    have hk : k' ≠ k := by
      rintro rfl
      exact h (by simp)
    have hrest : k ∉ rest.map Prod.fst := by
      intro hm
      exact h (by simp [hm])
    simp [alookup, hk, ih hrest]

theorem alookup_of_mem_nodup {κ α : Type} [DecidableEq κ] {k : κ} {a : α} {m : List (κ × α)}
    (hnd : (m.map Prod.fst).Nodup) (hmem : (k, a) ∈ m) : alookup k m = some a := by
  induction m with
  | nil => simp at hmem
  | cons p rest ih =>
    obtain ⟨k', v⟩ := p
    rw [List.map_cons, List.nodup_cons] at hnd
    rcases List.mem_cons.mp hmem with h | h
    · rw [Prod.mk.injEq] at h
      obtain ⟨rfl, rfl⟩ := h
      simp [alookup]
    · have hk : k' ≠ k := by
        rintro rfl
        exact hnd.1 (by simpa using List.mem_map_of_mem Prod.fst h)
      simp [alookup, hk, ih hnd.2 h]

/-! ### A stable sort, modelling Python's stable `sorted` -/

/-- Insert `x` before the first element `y` with `le x y` (keeps `x` before
elements it compares equal to that come later in the original list). -/
def insertLe {α : Type} (le : α → α → Bool) (x : α) : List α → List α
  | [] => [x]
  | y :: ys => if le x y then x :: y :: ys else y :: insertLe le x ys

/-- Stable insertion sort: the embedding of Python's stable `sorted`. -/
def sortLe {α : Type} (le : α → α → Bool) : List α → List α
  | [] => []
  | x :: xs => insertLe le x (sortLe le xs)

theorem insertLe_perm {α : Type} (le : α → α → Bool) (x : α) (l : List α) :
    (insertLe le x l).Perm (x :: l) := by
  induction l with
  | nil => exact List.Perm.refl _
  | cons y ys ih =>
    by_cases h : le x y
    · simp [insertLe, h]
    · have h' : le x y = false := by simpa using h
      rw [insertLe, h']
      simp only [Bool.false_eq_true, if_false]
      exact (ih.cons y).trans (List.Perm.swap x y ys)

theorem sortLe_perm {α : Type} (le : α → α → Bool) (l : List α) :
    (sortLe le l).Perm l := by
  induction l with
  | nil => exact List.Perm.refl _
  | cons x xs ih => exact (insertLe_perm le x _).trans (ih.cons x)

theorem mem_insertLe {α : Type} {le : α → α → Bool} {x b : α} {l : List α}
    (hb : b ∈ insertLe le x l) : b = x ∨ b ∈ l :=
  List.mem_cons.mp ((insertLe_perm le x l).mem_iff.mp hb)

theorem insertLe_sorted {α : Type} (le : α → α → Bool)
    (htot : ∀ a b, le a b = false → le b a = true)
    (htrans : ∀ a b c, le a b = true → le b c = true → le a c = true)
    (x : α) (l : List α) (hl : l.Pairwise (fun a b => le a b = true)) :
    (insertLe le x l).Pairwise (fun a b => le a b = true) := by
  induction l with
  | nil => simp [insertLe]
  | cons y ys ih =>
    rcases List.pairwise_cons.mp hl with ⟨hy, hys⟩
    by_cases h : le x y
    · simp only [insertLe, h, if_pos]
      refine List.pairwise_cons.mpr ⟨?_, hl⟩
      intro b hb
      rcases List.mem_cons.mp hb with rfl | hb
      · exact h
      · exact htrans _ _ _ h (hy b hb)
    · simp only [insertLe, h, Bool.false_eq_true, if_false]
      refine List.pairwise_cons.mpr ⟨?_, ih hys⟩
      intro b hb
      rcases mem_insertLe hb with rfl | hb
      · exact htot _ _ (by simpa using h)
      · exact hy b hb

theorem sortLe_sorted {α : Type} (le : α → α → Bool)
    (htot : ∀ a b, le a b = false → le b a = true)
    (htrans : ∀ a b c, le a b = true → le b c = true → le a c = true)
    (l : List α) : (sortLe le l).Pairwise (fun a b => le a b = true) := by
  induction l with
  | nil => exact List.Pairwise.nil
  | cons x xs ih => exact insertLe_sorted le htot htrans x _ ih

/-- Stability: filtering the sorted list by a predicate that only holds on a
single equivalence class of the sort key recovers the original filter.
Hypothesis: whenever `p x` holds, every element strictly below `x` in the sort
order fails `p`. -/
theorem filter_insertLe {α : Type} (le : α → α → Bool) (p : α → Bool) (x : α) (l : List α)
    (hlow : ∀ y, p x = true → le x y = false → p y = false) :
    (insertLe le x l).filter p = if p x then x :: l.filter p else l.filter p := by
  induction l with
  | nil => by_cases hp : p x <;> simp [insertLe, hp]
  | cons y ys ih =>
    by_cases h : le x y
    · by_cases hp : p x <;> simp [insertLe, h, List.filter_cons, hp]
    · have hxy : le x y = false := by simpa using h
      rw [insertLe, hxy]
      simp only [Bool.false_eq_true, if_false]
      by_cases hp : p x
      · have hpy : p y = false := hlow y hp hxy
        simp [List.filter_cons, hpy, ih, hp]
      · by_cases hpy : p y <;> simp [List.filter_cons, hpy, ih, hp]

theorem filter_sortLe {α : Type} (le : α → α → Bool) (p : α → Bool) (l : List α)
    (hlow : ∀ x y, p x = true → le x y = false → p y = false) :
    (sortLe le l).filter p = l.filter p := by
  induction l with
  | nil => rfl
  | cons x xs ih =>
    rw [sortLe, filter_insertLe le p x _ (hlow x)]
    by_cases hp : p x <;> simp [List.filter, hp, ih]

/-! ### app.py — `Account` (src/Desktop/app.py lines 30-145)

Amounts are exact rationals (Python `Decimal` addition/subtraction/comparison
is exact); dates are integers (total order of ISO calendar dates).  The
`created_at` field (set to `date.today()`, used by no computation) is omitted.
-/

/-- One element of `Account.debits` / `Account.credits` in app.py:
`{"amount": ..., "description": ..., "date": ...}`. -/
structure AppEntry where
  amount : ℚ
  description : String
  date : Int
deriving DecidableEq, Repr

/-- app.py `Account`.  The constructor's `ValueError` on an invalid type
string is embedded by typing `type` with the `AccountType` enumeration. -/
structure AppAccount where
  name : String
  type : AccountType
  category : String
  debits : List AppEntry
  credits : List AppEntry
deriving DecidableEq, Repr

/-- `Account.__init__` (app.py line 31). -/
def AppAccount.new (name : String) (type : AccountType) (category : String) : AppAccount :=
  ⟨name, type, category, [], []⟩

/-- `Account.debit` (app.py line 49): appends unconditionally; the
`Decimal(str(amount))` coercion is the identity on exact amounts. -/
def AppAccount.debit (a : AppAccount) (amount : ℚ) (description : String) (when : Int) :
    AppAccount :=
  { a with debits := a.debits ++ [⟨amount, description, when⟩] }

/-- `Account.credit` (app.py line 60): appends unconditionally. -/
def AppAccount.credit (a : AppAccount) (amount : ℚ) (description : String) (when : Int) :
    AppAccount :=
  { a with credits := a.credits ++ [⟨amount, description, when⟩] }

/-- `Account.total_debit` (app.py line 72). -/
def AppAccount.total_debit (a : AppAccount) : ℚ :=
  (a.debits.map AppEntry.amount).sum

/-- `Account.total_credit` (app.py line 77). -/
def AppAccount.total_credit (a : AppAccount) : ℚ :=
  (a.credits.map AppEntry.amount).sum

/-- `Account.balance` (app.py line 82, identical to models.py line 76 and to
double_entry.py's `Account.balance` up to representation): raw balance
`total_debit - total_credit`, sign-flipped for natural-credit accounts. -/
def AppAccount.balance (a : AppAccount) : ℚ :=
  let raw := a.total_debit - a.total_credit
  if ACCOUNT_TYPES a.type = "credit" then -raw else raw

/-- `raw_balance` (models.py line 71): `total_debit - total_credit`. -/
def AppAccount.raw_balance (a : AppAccount) : ℚ :=
  a.total_debit - a.total_credit

/-- One row of `Account.entries` / `Account.statement` before the running
balance is attached; `typ` is the `"type"` field (`"debit"` / `"credit"`). -/
structure StmtEntry where
  date : Int
  description : String
  debit : ℚ
  credit : ℚ
  typ : String
deriving DecidableEq, Repr

/-- Date comparison used by `sorted(all_entries, key=lambda x: x["date"])`. -/
def stmtDateLe (x y : StmtEntry) : Bool := x.date ≤ y.date

/-- The row built for a debit entry by `Account.entries` (app.py lines 98-105). -/
def debRow (e : AppEntry) : StmtEntry := ⟨e.date, e.description, e.amount, 0, "debit"⟩

/-- The row built for a credit entry by `Account.entries` (app.py lines 108-115). -/
def credRow (e : AppEntry) : StmtEntry := ⟨e.date, e.description, 0, e.amount, "credit"⟩

/-- `Account.entries` (app.py line 93): all debit rows (in stored order), then
all credit rows, stably sorted by date (Python's `sorted` is stable). -/
def AppAccount.entries (a : AppAccount) : List StmtEntry :=
  sortLe stmtDateLe (a.debits.map debRow ++ a.credits.map credRow)

/-- A `StmtEntry` together with its running balance (`Account.statement`). -/
structure StmtLine where
  entry : StmtEntry
  balance : ℚ
deriving DecidableEq, Repr

/-- The per-row balance delta of `Account.statement` (app.py lines 133-138):
credit-normal accounts accumulate `credit - debit`, debit-normal accounts
`debit - credit`. -/
def stmtDelta (t : AccountType) (e : StmtEntry) : ℚ :=
  if ACCOUNT_TYPES t = "credit" then e.credit - e.debit else e.debit - e.credit

/-- The running-balance loop of `Account.statement`, starting from `b`. -/
def annotateFrom (t : AccountType) (b : ℚ) : List StmtEntry → List StmtLine
  | [] => []
  | e :: es => ⟨e, b + stmtDelta t e⟩ :: annotateFrom t (b + stmtDelta t e) es

/-- The inclusive date-bound filter of `Account.statement` (app.py 123-126). -/
def inBounds (s e : Option Int) (x : StmtEntry) : Bool :=
  (match s with | some sd => decide (sd ≤ x.date) | none => true) &&
  (match e with | some ed => decide (x.date ≤ ed) | none => true)

/-- `Account.statement` (app.py line 120): filter `entries` by the inclusive
bounds, then walk the list accumulating the running balance from zero. -/
def AppAccount.statement (a : AppAccount) (s e : Option Int) : List StmtLine :=
  annotateFrom a.type 0 ((a.entries).filter (inBounds s e))

/-! ### app.py — module-level posting and reporting (lines 191-321) -/

/-- One transaction of the `transactions` history (app.py lines 240-247). -/
structure AppTx where
  id : Nat
  date : Int
  description : String
  amount : ℚ
  debit_entries : List (String × ℚ)
  credit_entries : List (String × ℚ)
deriving DecidableEq, Repr

/-- The module-level mutable state of app.py: the `accounts` dict and the
`transactions` list. -/
structure AppState where
  accounts : List (String × AppAccount)
  transactions : List AppTx
deriving DecidableEq, Repr

/-- `validate_transaction` (app.py line 191): both sides non-empty and the
totals exactly equal; note that it performs no per-amount positivity check. -/
def validateTransactionApp (debits credits : List (String × ℚ)) : Except String Unit :=
  if debits = [] ∨ credits = [] then
    .error "Both debit and credit entries are required"
  else if (debits.map Prod.snd).sum ≠ (credits.map Prod.snd).sum then
    .error "Transaction not balanced"
  else
    .ok ()

/-- The `for acct, amt in debits.items(): accounts[acct].debit(...)` loop of
`post_transaction` (app.py lines 232-233).  A missing account raises mid-loop,
leaving the accounts debited so far modified (the returned state keeps them). -/
def applyAppDebits (m : List (String × AppAccount)) (desc : String) (dt : Int) :
    List (String × ℚ) → Except String Unit × List (String × AppAccount)
  | [] => (.ok (), m)
  | (n, amt) :: rest =>
    match alookup n m with
    | none => (.error ("Account not found: " ++ n), m)
    | some _ =>
      applyAppDebits (aupdate n (fun a => a.debit amt desc dt) m) desc dt rest

/-- The credit loop of `post_transaction` (app.py lines 234-235). -/
def applyAppCredits (m : List (String × AppAccount)) (desc : String) (dt : Int) :
    List (String × ℚ) → Except String Unit × List (String × AppAccount)
  | [] => (.ok (), m)
  | (n, amt) :: rest =>
    match alookup n m with
    | none => (.error ("Account not found: " ++ n), m)
    | some _ =>
      applyAppCredits (aupdate n (fun a => a.credit amt desc dt) m) desc dt rest

/-- `post_transaction` (app.py line 204): validate, apply all debit then all
credit entries, record the transaction newest-first.  The `storage.save_data`
call is external I/O and has no effect on the in-memory state. -/
def postTransactionApp (S : AppState) (debits credits : List (String × ℚ))
    (description : String) (tx_date : Int) : Except String AppTx × AppState :=
  match validateTransactionApp debits credits with
  | .error e => (.error e, S)
  | .ok _ =>
    match applyAppDebits S.accounts description tx_date debits with
    | (.error e, m₁) => (.error e, { S with accounts := m₁ })
    | (.ok _, m₁) =>
      match applyAppCredits m₁ description tx_date credits with
      | (.error e, m₂) => (.error e, { S with accounts := m₂ })
      | (.ok _, m₂) =>
        let tx : AppTx :=
          ⟨S.transactions.length + 1, tx_date, description, (debits.map Prod.snd).sum,
            debits, credits⟩
        (.ok tx, ⟨m₂, tx :: S.transactions⟩)

/-- The balance used by the reports for one account: full-history `balance`
without a cutoff, else the last running balance of
`statement(end_date=as_of_date)`, or zero if no entries (app.py 289-294). -/
def accountReportBalance (a : AppAccount) (asOf : Option Int) : ℚ :=
  match asOf with
  | none => a.balance
  | some d => (((a.statement none (some d)).map StmtLine.balance).getLastD 0)

/-- The (debit, credit) presentation of one account in `trial_balance`
(app.py lines 296-302): positive balances in the natural column, abnormal
balances as positive numbers in the opposite column. -/
def trialColumns (a : AppAccount) (asOf : Option Int) : ℚ × ℚ :=
  let balance := accountReportBalance a asOf
  let debit_amt := if 0 < balance then balance else 0
  let credit_amt := if balance < 0 then -balance else 0
  if ACCOUNT_TYPES a.type = "credit" then (credit_amt, debit_amt)
  else (debit_amt, credit_amt)

/-- The sort key order of `sorted(accounts.values(), key=lambda x: (x.type, x.name))`:
lexicographic on the Python type name, then the account name. -/
def accSortLe (x y : AppAccount) : Bool :=
  x.type.pyName < y.type.pyName ||
    (x.type.pyName = y.type.pyName && x.name ≤ y.name)

/-- The `(total_debits, total_credits)` totals of `trial_balance`
(app.py lines 280-319). -/
def trialTotals (m : List (String × AppAccount)) (asOf : Option Int) : ℚ × ℚ :=
  let sortedAccounts := sortLe accSortLe (m.map Prod.snd)
  ((sortedAccounts.map (fun a => (trialColumns a asOf).1)).sum,
   (sortedAccounts.map (fun a => (trialColumns a asOf).2)).sum)

/-- `is_balanced` of `trial_balance` (app.py line 318). -/
def trialIsBalanced (m : List (String × AppAccount)) (asOf : Option Int) : Prop :=
  (trialTotals m asOf).1 = (trialTotals m asOf).2

/-! ### double_entry.py — Ledger (src/Desktop/double_entry.py)

Every amount handled by the console application passes through
`D(...) = quantize to cents`, so monetary values are embedded as integer
cents (`Int`).  `JournalEntry.date` (always `date.today()`, never read by the
verified operations) is omitted.  `uuid.uuid4()` entry ids are opaque
unique tokens; they are embedded as natural numbers drawn from a
deterministic fresh-id counter (`nextId`), which models their uniqueness.
-/

/-- `EntryLine` (double_entry.py line 31). -/
structure DEEntryLine where
  account : String
  amount : Int
  is_debit : Bool
deriving DecidableEq, Repr

/-- `JournalEntry` (double_entry.py line 37). -/
structure DEJournalEntry where
  id : Nat
  description : String
  lines : List DEEntryLine
  posted : Bool
deriving DecidableEq, Repr

/-- `Account` of double_entry.py (line 45): debit/credit lists of
`(journal-entry id, amount)` pairs. -/
structure DEAccount where
  code : String
  name : String
  type : AccountType
  debits : List (Nat × Int)
  credits : List (Nat × Int)
deriving DecidableEq, Repr

/-- `Account.balance` (double_entry.py line 54): debit-normal for
`Asset`/`Expense`, credit-normal otherwise. -/
def DEAccount.balance (a : DEAccount) : Int :=
  let total_debits := (a.debits.map Prod.snd).sum
  let total_credits := (a.credits.map Prod.snd).sum
  if a.type = .Asset ∨ a.type = .Expense then total_debits - total_credits
  else total_credits - total_debits

/-- `Ledger` state (double_entry.py line 67): the `accounts` and `journal`
dicts, plus the fresh-id counter standing in for `uuid.uuid4()`. -/
structure DELedger where
  accounts : List (String × DEAccount)
  journal : List (Nat × DEJournalEntry)
  nextId : Nat
deriving DecidableEq, Repr

/-- `Ledger.create_account` (double_entry.py line 98): a no-op when the code
already exists, otherwise inserts a fresh empty account. -/
def DELedger.create_account (L : DELedger) (code name : String) (typ : AccountType) :
    DELedger :=
  match alookup code L.accounts with
  | some _ => L
  | none => { L with accounts := L.accounts ++ [(code, ⟨code, name, typ, [], []⟩)] }

/-- The seed chart of accounts (`Ledger._seed_accounts`, double_entry.py
line 74). -/
def seedTriples : List (String × String × AccountType) :=
  [("1000", "Cash", .Asset),
   ("1010", "Bank", .Asset),
   ("1020", "Accounts Receivable", .Asset),
   ("1030", "Inventory", .Asset),
   ("1040", "Equipment", .Asset),
   ("1045", "Accumulated Depreciation", .Asset),
   ("2000", "Accounts Payable", .Liability),
   ("2100", "Wages Payable", .Liability),
   ("2200", "Bank Loan", .Liability),
   ("3000", "Equity", .Equity),
   ("4000", "Revenue", .Revenue),
   ("4100", "Sales Returns", .Revenue),
   ("5000", "COGS", .Expense),
   ("5100", "Wages Expense", .Expense),
   ("5200", "Rent & SG&A", .Expense),
   ("5300", "Depreciation Expense", .Expense),
   ("5400", "Interest Expense", .Expense),
   ("6000", "Tax Expense", .Expense)]

/-- `Ledger.__init__` (double_entry.py line 68): empty dicts, then the seed. -/
def seedLedger : DELedger :=
  seedTriples.foldl (fun L t => L.create_account t.1 t.2.1 t.2.2) ⟨[], [], 0⟩

/-- Total of the debit lines of an entry (double_entry.py line 112). -/
def debitTotal (lines : List DEEntryLine) : Int :=
  ((lines.filter (fun l => l.is_debit)).map DEEntryLine.amount).sum

/-- Total of the credit lines of an entry (double_entry.py line 113). -/
def creditTotal (lines : List DEEntryLine) : Int :=
  ((lines.filter (fun l => !l.is_debit)).map DEEntryLine.amount).sum

/-- `Ledger.new_journal_entry` (double_entry.py line 108): reject a
non-positive line amount, then an unbalanced total; on success store the
unposted entry in the journal under a fresh id. -/
def DELedger.new_journal_entry (L : DELedger) (description : String)
    (lines : List DEEntryLine) : Except String (Nat × DELedger) :=
  if lines.any (fun l => l.amount ≤ 0) then
    .error "All line amounts must be positive"
  else if debitTotal lines ≠ creditTotal lines then
    .error "Journal entry unbalanced"
  else
    let jid := L.nextId
    let je : DEJournalEntry := ⟨jid, description, lines, false⟩
    .ok (jid, { L with journal := L.journal ++ [(jid, je)],
                       nextId := L.nextId + 1 })

/-- The append performed for one line of `Ledger.post_entry` (double_entry.py
lines 130-133): debit lines extend the account's debit list, credit lines its
credit list, tagged with the entry id. -/
def applyLineAcc (jid : Nat) (l : DEEntryLine) (a : DEAccount) : DEAccount :=
  if l.is_debit then { a with debits := a.debits ++ [(jid, l.amount)] }
  else { a with credits := a.credits ++ [(jid, l.amount)] }

/-- The `for l in je.lines` loop of `Ledger.post_entry` (double_entry.py
lines 128-133).  A line whose account is not defined raises `KeyError`
mid-loop: the returned state keeps the lines applied so far. -/
def applyDELines (L : DELedger) (jid : Nat) :
    List DEEntryLine → Except String Unit × DELedger
  | [] => (.ok (), L)
  | l :: rest =>
    match alookup l.account L.accounts with
    | none => (.error ("Account " ++ l.account ++ " not defined"), L)
    | some _ =>
      applyDELines
        { L with accounts := aupdate l.account (applyLineAcc jid l) L.accounts } jid rest

/-- `Ledger.post_entry` (double_entry.py line 121). -/
def DELedger.post_entry (L : DELedger) (jid : Nat) :
    Except String DEJournalEntry × DELedger :=
  match alookup jid L.journal with
  | none => (.error "Journal entry not found", L)
  | some je =>
    if je.posted then (.error "Entry already posted", L)
    else
      match applyDELines L jid je.lines with
      | (.error e, L') => (.error e, L')
      | (.ok _, L') =>
        (.ok { je with posted := true },
         { L' with journal := aupdate jid (fun j => { j with posted := true }) L'.journal })

/-- `Ledger.post_transaction` (double_entry.py line 138): create and post. -/
def DELedger.post_transaction (L : DELedger) (description : String)
    (lines : List DEEntryLine) : Except String DEJournalEntry × DELedger :=
  match L.new_journal_entry description lines with
  | .error e => (.error e, L)
  | .ok (jid, L₁) => L₁.post_entry jid

/-- The `for code, acct in list(self.accounts.items())` expense-closing loop
of `Ledger.close_books` (double_entry.py lines 253-261), iterating over the
snapshot of account codes while reading balances from the current state. -/
def closeExpenses (L : DELedger) : List String → Except String Unit × DELedger
  | [] => (.ok (), L)
  | c :: cs =>
    match alookup c L.accounts with
    | none => closeExpenses L cs
    | some acct =>
      if acct.type = .Expense then
        let amt := acct.balance
        if amt ≠ 0 then
          match L.post_transaction ("Close Expense " ++ acct.name)
              [⟨"3000", amt, true⟩, ⟨c, amt, false⟩] with
          | (.ok _, L') => closeExpenses L' cs
          | (.error e, L') => (.error e, L')
        else closeExpenses L cs
      else closeExpenses L cs

/-- The `total_expense` computed by `close_books` (double_entry.py
lines 241-243): the sum of the balances of all `Expense`-typed accounts. -/
def totalExpenseDE (L : DELedger) : Int :=
  (L.accounts.map (fun p => if p.2.type = .Expense then p.2.balance else 0)).sum

/-- The `total_revenue` computed by `close_books` (double_entry.py
lines 239-240): the balance of account `'4000'` only. -/
def totalRevenueDE (L : DELedger) : Int :=
  match alookup "4000" L.accounts with
  | some a => a.balance
  | none => 0

/-- `Ledger.close_books` (double_entry.py line 233): close revenue account
`'4000'` into `'3000'` when non-zero, then close each `Expense` account with a
non-zero balance individually into `'3000'`; returns the net income. -/
def DELedger.close_books (L : DELedger) : Except String Int × DELedger :=
  let total_revenue := totalRevenueDE L
  let total_expense := totalExpenseDE L
  let net_income := total_revenue - total_expense
  let step1 :=
    if total_revenue ≠ 0 then
      L.post_transaction "Close Revenue"
        [⟨"4000", total_revenue, true⟩, ⟨"3000", total_revenue, false⟩]
    else (.ok ⟨0, "", [], true⟩, L)
  match step1 with
  | (.error e, L₁) => (.error e, L₁)
  | (.ok _, L₁) =>
    match closeExpenses L₁ (L₁.accounts.map Prod.fst) with
    | (.error e, L₂) => (.error e, L₂)
    | (.ok _, L₂) => (.ok net_income, L₂)

/-! ### app.py — depreciation (lines 255-271) -/

/-- `Decimal` rounding to the nearest integer with ties going to the even
neighbour (`ROUND_HALF_EVEN`, the context default used by the bare
`.quantize(Decimal("0.01"))` calls in app.py). -/
def roundHalfEvenZ (q : ℚ) : ℤ :=
  let n := ⌊q⌋
  let frac := q - n
  if frac < 1/2 then n
  else if 1/2 < frac then n + 1
  else if Even n then n else n + 1

/-- `.quantize(Decimal("0.01"))`: round to two decimal places.
The division feeding it is computed by `Decimal` at context precision 28,
which is exact at the two-decimal level for all monetary magnitudes the
application can represent, so quantizing the exact quotient is faithful. -/
def quantize2 (q : ℚ) : ℚ :=
  (roundHalfEvenZ (q * 100) : ℚ) / 100

/-- `calculate_depreciation` (app.py line 255): straight-line, 5-year life;
`annual = equipment balance / 5` rounded to 2 decimals, `monthly = annual / 12`
rounded to 2 decimals; debit Depreciation Expense and credit Accumulated
Depreciation by the monthly amount.  A missing account raises `KeyError`
(embedded as `Except.error`).  The `strftime`-formatted description is
abstracted to a fixed prefix plus the entry date. -/
def calculateDepreciationApp (m : List (String × AppAccount)) (entry_date : Int) :
    Except String (List (String × AppAccount)) :=
  match alookup "Equipment" m with
  | none => .error "KeyError: Equipment"
  | some equipment =>
    let annual_depreciation := quantize2 (equipment.balance / 5)
    let monthly_depreciation := quantize2 (annual_depreciation / 12)
    let description := "Monthly depreciation for " ++ toString entry_date
    match alookup "Depreciation Expense" m with
    | none => .error "KeyError: Depreciation Expense"
    | some _ =>
      let m₁ := aupdate "Depreciation Expense"
        (fun a => a.debit monthly_depreciation description entry_date) m
      match alookup "Accumulated Depreciation" m₁ with
      | none => .error "KeyError: Accumulated Depreciation"
      | some _ =>
        .ok (aupdate "Accumulated Depreciation"
          (fun a => a.credit monthly_depreciation description entry_date) m₁)

/-! ### storage.py — save / load (lines 20-96)

Monetary amounts are serialized as the exact decimal strings `str(Decimal)`
produces and parsed back with `Decimal(...)`, which is a lossless round trip;
dates are serialized as ISO-8601 with `.isoformat()` and parsed back with
`datetime.fromisoformat(...).date()`, also lossless.  Both round trips are
embedded as the identity on the exact values, so a stored entry carries the
same rational amount and the same date as the in-memory entry it came from.
The file I/O and the backup copy are external side effects with no bearing on
the reconstructed state.
-/

/-- One serialized debit/credit entry (storage.py lines 37-46). -/
structure SavedEntry where
  amount : ℚ
  date : Int
  description : String
deriving DecidableEq, Repr

/-- One serialized account (storage.py lines 32-47): name, type, category and
the full entry lists — no balance aggregate is stored. -/
structure SavedAccount where
  name : String
  type : AccountType
  category : String
  debits : List SavedEntry
  credits : List SavedEntry
deriving DecidableEq, Repr

/-- The JSON document written by `save_data` (storage.py line 20). -/
structure SavedData where
  accounts : List (String × SavedAccount)
  transactions : List AppTx
deriving DecidableEq, Repr

/-- `save_data` (storage.py line 20). -/
def saveData (accounts : List (String × AppAccount)) (transactions : List AppTx) :
    SavedData :=
  ⟨accounts.map (fun p =>
      (p.1, ⟨p.2.name, p.2.type, p.2.category,
        p.2.debits.map (fun e => ⟨e.amount, e.date, e.description⟩),
        p.2.credits.map (fun e => ⟨e.amount, e.date, e.description⟩)⟩)),
   transactions⟩

/-- The replay loops of `load_data` (storage.py lines 69-81): rebuild each
account from its stored name/type/category and re-apply every stored debit
and credit entry in order — balances are recomputed, never read from a
stored aggregate. -/
def loadAccount (sa : SavedAccount) : AppAccount :=
  let base := AppAccount.new sa.name sa.type sa.category
  let withDebits := sa.debits.foldl
    (fun acc e => acc.debit e.amount e.description e.date) base
  sa.credits.foldl (fun acc e => acc.credit e.amount e.description e.date) withDebits

/-- `load_data` (storage.py line 56), happy path: reconstruct every account by
replay and return the transaction history. -/
def loadData (d : SavedData) : List (String × AppAccount) × List AppTx :=
  (d.accounts.map (fun p => (p.1, loadAccount p.2)), d.transactions)

/-! ### models.py — `Account.validate_transaction` (lines 93-107) -/

/-- `Account` of models.py (line 14): bare amount lists, no dates. -/
structure MAccount where
  name : String
  type : AccountType
  debits : List ℚ
  credits : List ℚ
deriving DecidableEq, Repr

/-- `Account.debit` of models.py (line 38): appends unconditionally (the
`description` argument is accepted and ignored by the source). -/
def MAccount.debit (a : MAccount) (amount : ℚ) (description : String) : MAccount :=
  { a with debits := a.debits ++ [amount] }

/-- `Account.credit` of models.py (line 49): appends unconditionally. -/
def MAccount.credit (a : MAccount) (amount : ℚ) (description : String) : MAccount :=
  { a with credits := a.credits ++ [amount] }

/-- `Account.validate_transaction` (models.py line 93): rejects non-positive
amounts; it is a separate method that `debit`/`credit` never invoke. -/
def MAccount.validate_transaction (a : MAccount) (is_debit : Bool) (amount : ℚ) :
    Except String Unit :=
  if amount ≤ 0 then .error "Amount must be positive" else .ok ()

/-! ### app.py — initial chart of accounts (lines 148-187) -/

/-- `INITIAL_ACCOUNTS` (app.py line 148): name, type and category of the
seeded chart.  (`'` is the apostrophe of "Owner's Equity".) -/
def INITIAL_ACCOUNTS : List (String × AccountType × String) :=
  [("Cash", .Asset, "Current Assets"),
   ("Accounts Receivable", .Asset, "Current Assets"),
   ("Inventory", .Asset, "Current Assets"),
   ("Equipment", .Asset, "Fixed Assets"),
   ("Accumulated Depreciation", .Asset, "Fixed Assets"),
   ("Accounts Payable", .Liability, "Current Liabilities"),
   ("Wages Payable", .Liability, "Current Liabilities"),
   ("Bank Loan", .Liability, "Long Term Liabilities"),
   ("Owner's Equity", .Equity, "Owner's Equity"),
   ("Retained Earnings", .Equity, "Retained Earnings"),
   ("Sales Revenue", .Revenue, "Operating Revenue"),
   ("Service Revenue", .Revenue, "Operating Revenue"),
   ("Interest Income", .Revenue, "Other Revenue"),
   ("Cost of Goods Sold", .Expense, "Operating Expenses"),
   ("Salary Expense", .Expense, "Operating Expenses"),
   ("Rent Expense", .Expense, "Operating Expenses"),
   ("Utilities Expense", .Expense, "Operating Expenses"),
   ("Depreciation Expense", .Expense, "Operating Expenses"),
   ("Interest Expense", .Expense, "Other Expenses")]

/-- The first-run initialization of app.py (lines 182-187): one fresh
`Account` per `INITIAL_ACCOUNTS` item, empty transaction history. -/
def initialAppAccounts : List (String × AppAccount) :=
  INITIAL_ACCOUNTS.map (fun p => (p.1, AppAccount.new p.1 p.2.1 p.2.2))

/-- The fresh module-level state of app.py on first run. -/
def initialAppState : AppState := ⟨initialAppAccounts, []⟩

/-! ### Sequences of account operations

The caller-visible mutators of an app.py `Account` are `debit` and `credit`;
a list of `AccOp`s is an arbitrary interleaved sequence of such calls, in
insertion order. -/

/-- One `Account.debit` / `Account.credit` call. -/
inductive AccOp where
  | debit (amount : ℚ) (description : String) (when : Int)
  | credit (amount : ℚ) (description : String) (when : Int)
deriving DecidableEq, Repr

/-- Apply a sequence of debit/credit calls to an account. -/
def applyOps (a : AppAccount) : List AccOp → AppAccount
  | [] => a
  | .debit amt d w :: rest => applyOps (a.debit amt d w) rest
  | .credit amt d w :: rest => applyOps (a.credit amt d w) rest

/-- Total amount debited by a sequence of calls. -/
def opsDebitSum : List AccOp → ℚ
  | [] => 0
  | .debit amt _ _ :: rest => amt + opsDebitSum rest
  | .credit _ _ _ :: rest => opsDebitSum rest

/-- Total amount credited by a sequence of calls. -/
def opsCreditSum : List AccOp → ℚ
  | [] => 0
  | .debit _ _ _ :: rest => opsCreditSum rest
  | .credit amt _ _ :: rest => amt + opsCreditSum rest

/-- Whether an `Except` result is a success (no exception raised). -/
def exceptOk {ε α : Type} : Except ε α → Bool
  | .ok _ => true
  | .error _ => false

theorem applyOps_type (a : AppAccount) (ops : List AccOp) :
    (applyOps a ops).type = a.type := by
  induction ops generalizing a with
  | nil => rfl
  | cons op rest ih =>
    cases op with
    | debit amt d w => simpa [applyOps, AppAccount.debit] using ih (a.debit amt d w)
    | credit amt d w => simpa [applyOps, AppAccount.credit] using ih (a.credit amt d w)

theorem applyOps_total_debit (a : AppAccount) (ops : List AccOp) :
    (applyOps a ops).total_debit = a.total_debit + opsDebitSum ops := by
  induction ops generalizing a with
  | nil => simp [applyOps, opsDebitSum]
  | cons op rest ih =>
    cases op with
    | debit amt d w =>
      rw [applyOps, ih, opsDebitSum]
      simp [AppAccount.debit, AppAccount.total_debit]
      ring
    | credit amt d w =>
      rw [applyOps, ih, opsDebitSum]
      simp [AppAccount.credit, AppAccount.total_debit]

theorem applyOps_total_credit (a : AppAccount) (ops : List AccOp) :
    (applyOps a ops).total_credit = a.total_credit + opsCreditSum ops := by
  induction ops generalizing a with
  | nil => simp [applyOps, opsCreditSum]
  | cons op rest ih =>
    cases op with
    | debit amt d w =>
      rw [applyOps, ih, opsCreditSum]
      simp [AppAccount.debit, AppAccount.total_credit]
    | credit amt d w =>
      rw [applyOps, ih, opsCreditSum]
      simp [AppAccount.credit, AppAccount.total_credit]
      ring

/-- C3: for every account and every sequence of debit/credit appends,
`balance()` equals the sum of stored debit amounts minus the sum of stored
credit amounts, sign-flipped exactly when the account type is credit-normal
(Liability, Equity, Revenue); `balance` is a pure function of the type and
the entry lists — the second conjunct exhibits it as exactly the
sign-adjusted difference of the stored lists, with no cached state. -/
theorem C3_balance_is_signed_sum_of_entry_lists :
    (∀ (name : String) (t : AccountType) (category : String) (ops : List AccOp),
      (applyOps (AppAccount.new name t category) ops).balance =
        (if ACCOUNT_TYPES t = "credit" then -(opsDebitSum ops - opsCreditSum ops)
         else opsDebitSum ops - opsCreditSum ops)) ∧
    (∀ a : AppAccount,
      a.balance =
        (if ACCOUNT_TYPES a.type = "credit" then
          -((a.debits.map AppEntry.amount).sum - (a.credits.map AppEntry.amount).sum)
         else (a.debits.map AppEntry.amount).sum - (a.credits.map AppEntry.amount).sum)) := by
  constructor
  · intro name t category ops
    have hd := applyOps_total_debit (AppAccount.new name t category) ops
    have hc := applyOps_total_credit (AppAccount.new name t category) ops
    have ht := applyOps_type (AppAccount.new name t category) ops
    rw [AppAccount.balance, hd, hc, ht]
    simp [AppAccount.new, AppAccount.total_debit, AppAccount.total_credit]
  · intro a
    rfl

/-- The account used by the C6 counterexample: a fresh asset account. -/
def c6Account : AppAccount := AppAccount.new "Cash" .Asset "Current Assets"

/-- C6 counterexample: the claim says `Account.debit`/`Account.credit` fail
with an `InvalidAmount` error for amounts ≤ 0 and leave the entry lists
unchanged.  On the code, `debit(-5)` and `credit(-5)` cannot fail (they have
no error path at all) and do modify the entry lists: the negative entry is
appended. -/
theorem C6_counterexample :
    ((-5 : ℚ) ≤ 0) ∧
    (c6Account.debit (-5) "bad" 0).debits = [⟨-5, "bad", 0⟩] ∧
    (c6Account.debit (-5) "bad" 0).debits ≠ c6Account.debits ∧
    (c6Account.credit (-5) "bad" 0).credits = [⟨-5, "bad", 0⟩] ∧
    (c6Account.credit (-5) "bad" 0).credits ≠ c6Account.credits := by
  refine ⟨by norm_num, by decide, by decide, by decide, by decide⟩

/-- C6 amended: `Account.debit` and `Account.credit` (app.py lines 49-69 and
models.py lines 38-58) append the entry unconditionally for every amount,
positive or not — the account itself performs no amount validation; the only
account-level check of non-positive amounts is the separate
`Account.validate_transaction` method of models.py, which fails exactly when
`amount ≤ 0` but is never called by `debit`/`credit`. -/
theorem C6_amended_debit_credit_never_validate :
    (∀ (a : AppAccount) (amt : ℚ) (d : String) (w : Int),
      (a.debit amt d w).debits = a.debits ++ [⟨amt, d, w⟩] ∧
      (a.debit amt d w).credits = a.credits ∧
      (a.credit amt d w).credits = a.credits ++ [⟨amt, d, w⟩] ∧
      (a.credit amt d w).debits = a.debits) ∧
    (∀ (a : MAccount) (amt : ℚ) (d : String),
      (a.debit amt d).debits = a.debits ++ [amt] ∧
      (a.credit amt d).credits = a.credits ++ [amt]) ∧
    (∀ (a : MAccount) (isd : Bool) (amt : ℚ),
      a.validate_transaction isd amt = .ok () ↔ 0 < amt) := by
  refine ⟨fun a amt d w => ⟨rfl, rfl, rfl, rfl⟩, fun a amt d => ⟨rfl, rfl⟩, ?_⟩
  intro a isd amt
  rw [MAccount.validate_transaction]
  by_cases h : amt ≤ 0 <;> simp [h] <;> linarith

/-- C10: `Ledger.create_account` (double_entry.py line 98) returns without
error and leaves the whole ledger — in particular the existing account with
its accumulated debit and credit entries — unchanged whenever the code is
already present, for any name and type. -/
theorem C10_create_account_idempotent
    (L : DELedger) (code : String) (a : DEAccount) (name : String) (typ : AccountType)
    (h : alookup code L.accounts = some a) :
    L.create_account code name typ = L := by
  rw [DELedger.create_account, h]

/-- C10 witness: creating account `'1000'` again on the seeded ledger, with a
different name and type, changes nothing. -/
theorem C10_witness :
    seedLedger.create_account "1000" "Another Cash" .Liability = seedLedger :=
  C10_create_account_idempotent seedLedger "1000" ⟨"1000", "Cash", .Asset, [], []⟩
    "Another Cash" .Liability (by decide)

/-- C8 counterexample: the claim says posting validation rejects an entirely
empty line list with an empty-entry error and rejects any line with
amount ≤ 0.  On the code, `Ledger.new_journal_entry` (double_entry.py)
accepts the empty line list (its totals are 0 = 0, and it has no emptiness
check), and `validate_transaction` (app.py) accepts entries whose line
amounts are negative (it has no per-amount check): both validators succeed
where the claim requires an error. -/
theorem C8_counterexample :
    exceptOk (seedLedger.new_journal_entry "empty entry" []) = true ∧
    exceptOk (validateTransactionApp [("Cash", -5)] [("Sales Revenue", -5)]) = true := by
  exact ⟨by decide, by norm_num [validateTransactionApp, exceptOk]⟩

/-- C8 amended: `Ledger.new_journal_entry` (double_entry.py line 108)
succeeds exactly when every line amount is positive and total debits equal
total credits exactly (no tolerance) — so it rejects non-positive amounts
and any imbalance, but accepts an empty line list (balanced as 0 = 0);
`validate_transaction` (app.py line 191) succeeds exactly when both the
debit and the credit side are non-empty and their totals are exactly equal —
so it rejects empty sides, but performs no per-line positivity check.  Both
validators run before any account is touched: they read only their
arguments, and the posting code applies entries only after they succeed. -/
theorem C8_amended_validation_exact :
    (∀ (L : DELedger) (d : String) (lines : List DEEntryLine),
      exceptOk (L.new_journal_entry d lines) = true ↔
        (∀ l ∈ lines, 0 < l.amount) ∧ debitTotal lines = creditTotal lines) ∧
    (∀ (debits credits : List (String × ℚ)),
      validateTransactionApp debits credits = .ok () ↔
        debits ≠ [] ∧ credits ≠ [] ∧
          (debits.map Prod.snd).sum = (credits.map Prod.snd).sum) := by
  constructor
  · intro L d lines
    rw [DELedger.new_journal_entry]
    by_cases h1 : lines.any (fun l => l.amount ≤ 0)
    · rw [if_pos h1]
      refine iff_of_false (by simp [exceptOk]) ?_
      rintro ⟨hpos, -⟩
      rcases List.any_eq_true.mp h1 with ⟨l, hl, hle⟩
      have h2 := hpos l hl
      simp at hle
      omega
    · rw [if_neg h1]
      have hall : ∀ l ∈ lines, 0 < l.amount := by
        intro l hl
        by_contra hnot
        have hle : l.amount ≤ 0 := by omega
        exact h1 (List.any_eq_true.mpr ⟨l, hl, by simpa⟩)
      by_cases h2 : debitTotal lines = creditTotal lines
      · rw [if_neg (not_not_intro h2)]
        exact iff_of_true rfl ⟨hall, h2⟩
      · rw [if_pos h2]
        exact iff_of_false (by simp [exceptOk]) (fun hcon => h2 hcon.2)
  · intro debits credits
    rw [validateTransactionApp]
    by_cases h1 : debits = [] ∨ credits = []
    · rw [if_pos h1]
      refine iff_of_false (by simp) ?_
      rintro ⟨hd, hc, -⟩
      rcases h1 with h | h
      · exact hd h
      · exact hc h
    · rw [if_neg h1]
      have hd : debits ≠ [] := fun h => h1 (Or.inl h)
      have hc : credits ≠ [] := fun h => h1 (Or.inr h)
      by_cases h2 : (debits.map Prod.snd).sum = (credits.map Prod.snd).sum
      · rw [if_neg (not_not_intro h2)]
        exact iff_of_true rfl ⟨hd, hc, h2⟩
      · rw [if_pos h2]
        exact iff_of_false (by simp) (fun hcon => h2 hcon.2.2)

/-! ### C9 — persistence round trip -/

theorem foldl_debit_replay (acc : AppAccount) (ds : List AppEntry) :
    ((ds.map (fun e => (⟨e.amount, e.date, e.description⟩ : SavedEntry))).foldl
      (fun a e => a.debit e.amount e.description e.date) acc)
    = { acc with debits := acc.debits ++ ds } := by
  induction ds generalizing acc with
  | nil => simp
  | cons e rest ih =>
    rw [List.map_cons, List.foldl_cons, ih]
    simp [AppAccount.debit]

theorem foldl_credit_replay (acc : AppAccount) (cs : List AppEntry) :
    ((cs.map (fun e => (⟨e.amount, e.date, e.description⟩ : SavedEntry))).foldl
      (fun a e => a.credit e.amount e.description e.date) acc)
    = { acc with credits := acc.credits ++ cs } := by
  induction cs generalizing acc with
  | nil => simp
  | cons e rest ih =>
    rw [List.map_cons, List.foldl_cons, ih]
    simp [AppAccount.credit]

theorem loadAccount_saveAccount (a : AppAccount) :
    loadAccount ⟨a.name, a.type, a.category,
      a.debits.map (fun e => ⟨e.amount, e.date, e.description⟩),
      a.credits.map (fun e => ⟨e.amount, e.date, e.description⟩)⟩ = a := by
  rw [loadAccount]
  obtain ⟨name, type, category, debits, credits⟩ := a
  simp only [AppAccount.new]
  rw [foldl_debit_replay, foldl_credit_replay]
  simp

/-- C9: saving the accounts and the transaction history and loading them back
reproduces the account map exactly — hence identical per-account balances and
identical trial-balance column totals.  Monetary amounts round-trip exactly
(decimal strings), dates round-trip exactly (ISO-8601), and `load_data`
rebuilds every account by replaying its stored entry lists through
`Account.debit`/`Account.credit` (the stored form contains no balance
aggregate at all). -/
theorem C9_save_load_roundtrip :
    ∀ (accounts : List (String × AppAccount)) (transactions : List AppTx),
      (loadData (saveData accounts transactions)).1 = accounts ∧
      (loadData (saveData accounts transactions)).2 = transactions ∧
      (∀ n : String,
        (alookup n (loadData (saveData accounts transactions)).1).map AppAccount.balance =
          (alookup n accounts).map AppAccount.balance) ∧
      trialTotals (loadData (saveData accounts transactions)).1 none =
        trialTotals accounts none := by
  intro accounts transactions
  have h1 : (loadData (saveData accounts transactions)).1 = accounts := by
    rw [loadData, saveData]
    simp only [List.map_map]
    have : ∀ p ∈ accounts,
        ((fun p => (p.1, loadAccount p.2)) ∘ fun p =>
          (p.1, (⟨p.2.name, p.2.type, p.2.category,
            p.2.debits.map (fun e => ⟨e.amount, e.date, e.description⟩),
            p.2.credits.map (fun e => ⟨e.amount, e.date, e.description⟩)⟩ : SavedAccount))) p
        = p := by
      intro p hp
      simp only [Function.comp]
      rw [loadAccount_saveAccount]
    rw [List.map_congr_left this]
    simp
  refine ⟨h1, rfl, ?_, ?_⟩
  · intro n
    rw [h1]
  · rw [h1]

/-! ### C7 — straight-line depreciation (app.py lines 255-271) -/

theorem total_debit_debit (a : AppAccount) (amt : ℚ) (d : String) (w : Int) :
    (a.debit amt d w).total_debit = a.total_debit + amt := by
  simp [AppAccount.debit, AppAccount.total_debit]

theorem total_credit_credit (a : AppAccount) (amt : ℚ) (d : String) (w : Int) :
    (a.credit amt d w).total_credit = a.total_credit + amt := by
  simp [AppAccount.credit, AppAccount.total_credit]

/-- C7: `calculate_depreciation` computes
`annual = equipment balance / 5` rounded to 2 decimals, then
`monthly = annual / 12` rounded to 2 decimals, and posts exactly one balanced
pair of entries — a debit of `monthly` on Depreciation Expense and a credit
of the same `monthly` on Accumulated Depreciation — leaving Equipment (hence
the next call's `monthly`) unchanged; for Equipment balance 8000.00 the
monthly amount is 133.33. -/
theorem C7_straight_line_depreciation
    (m : List (String × AppAccount)) (entry_date : Int) (equip dexp adep : AppAccount)
    (hEq : alookup "Equipment" m = some equip)
    (hDe : alookup "Depreciation Expense" m = some dexp)
    (hAd : alookup "Accumulated Depreciation" m = some adep) :
    calculateDepreciationApp m entry_date =
      .ok (aupdate "Accumulated Depreciation"
            (fun a => a.credit (quantize2 (quantize2 (equip.balance / 5) / 12))
              ("Monthly depreciation for " ++ toString entry_date) entry_date)
            (aupdate "Depreciation Expense"
              (fun a => a.debit (quantize2 (quantize2 (equip.balance / 5) / 12))
                ("Monthly depreciation for " ++ toString entry_date) entry_date) m)) ∧
    (∀ m', calculateDepreciationApp m entry_date = .ok m' →
      (alookup "Depreciation Expense" m').map AppAccount.total_debit =
          some (dexp.total_debit + quantize2 (quantize2 (equip.balance / 5) / 12)) ∧
      (alookup "Accumulated Depreciation" m').map AppAccount.total_credit =
          some (adep.total_credit + quantize2 (quantize2 (equip.balance / 5) / 12)) ∧
      alookup "Equipment" m' = some equip) ∧
    (equip.balance = 8000 → quantize2 (quantize2 (equip.balance / 5) / 12) = 13333/100) := by
  have hne1 : ("Accumulated Depreciation" : String) ≠ "Depreciation Expense" := by decide
  have hne2 : ("Equipment" : String) ≠ "Depreciation Expense" := by decide
  have hne3 : ("Equipment" : String) ≠ "Accumulated Depreciation" := by decide
  have hne4 : ("Depreciation Expense" : String) ≠ "Accumulated Depreciation" := by decide
  have hAd1 : ∀ f : AppAccount → AppAccount,
      alookup "Accumulated Depreciation" (aupdate "Depreciation Expense" f m) = some adep := by
    intro f
    rw [alookup_aupdate_ne _ _ hne1, hAd]
  have hmain : calculateDepreciationApp m entry_date =
      .ok (aupdate "Accumulated Depreciation"
            (fun a => a.credit (quantize2 (quantize2 (equip.balance / 5) / 12))
              ("Monthly depreciation for " ++ toString entry_date) entry_date)
            (aupdate "Depreciation Expense"
              (fun a => a.debit (quantize2 (quantize2 (equip.balance / 5) / 12))
                ("Monthly depreciation for " ++ toString entry_date) entry_date) m)) := by
    rw [calculateDepreciationApp, hEq, hDe]
    simp only [hAd1]
  refine ⟨hmain, ?_, ?_⟩
  · intro m' hm'
    rw [hmain] at hm'
    injection hm' with hm'
    subst hm'
    refine ⟨?_, ?_, ?_⟩
    · rw [alookup_aupdate_ne _ _ hne4, alookup_aupdate_self, hDe]
      simp [total_debit_debit]
    · rw [alookup_aupdate_self, hAd1]
      simp [total_credit_credit]
    · rw [alookup_aupdate_ne _ _ hne3, alookup_aupdate_ne _ _ hne2, hEq]
  · intro h8
    rw [h8]
    norm_num [quantize2, roundHalfEvenZ]

/-- The concrete chart used by the C7 witness: Equipment carries a single
8000.00 debit; the two depreciation accounts are fresh. -/
def c7Map : List (String × AppAccount) :=
  [("Equipment", ⟨"Equipment", .Asset, "Fixed Assets", [⟨8000, "Buy equipment", 0⟩], []⟩),
   ("Depreciation Expense",
     AppAccount.new "Depreciation Expense" .Expense "Operating Expenses"),
   ("Accumulated Depreciation",
     AppAccount.new "Accumulated Depreciation" .Asset "Fixed Assets")]

/-- C7 witness: on Equipment balance 8000.00 the posted monthly amount is
exactly 133.33 on both sides of the entry. -/
theorem C7_witness :
    calculateDepreciationApp c7Map 0 =
      .ok (aupdate "Accumulated Depreciation"
            (fun a => a.credit (13333/100) ("Monthly depreciation for " ++ toString (0 : Int)) 0)
            (aupdate "Depreciation Expense"
              (fun a => a.debit (13333/100) ("Monthly depreciation for " ++ toString (0 : Int)) 0)
              c7Map)) := by
  have h := (C7_straight_line_depreciation c7Map 0
    ⟨"Equipment", .Asset, "Fixed Assets", [⟨8000, "Buy equipment", 0⟩], []⟩
    (AppAccount.new "Depreciation Expense" .Expense "Operating Expenses")
    (AppAccount.new "Accumulated Depreciation" .Asset "Fixed Assets")
    rfl rfl rfl).1
  have hb : (⟨"Equipment", .Asset, "Fixed Assets", [⟨8000, "Buy equipment", 0⟩], []⟩ :
      AppAccount).balance = 8000 := by
    simp [AppAccount.balance, ACCOUNT_TYPES, AppAccount.total_debit, AppAccount.total_credit]
  rw [hb] at h
  have hM : quantize2 (quantize2 ((8000 : ℚ) / 5) / 12) = 13333/100 := by
    norm_num [quantize2, roundHalfEvenZ]
  rw [hM] at h
  exact h

/-! ### C5 — account statements (app.py lines 92-145) -/

theorem annotateFrom_map_entry (t : AccountType) (b : ℚ) (l : List StmtEntry) :
    (annotateFrom t b l).map StmtLine.entry = l := by
  induction l generalizing b with
  | nil => rfl
  | cons e es ih => simp [annotateFrom, ih]

theorem annotateFrom_last_balance (t : AccountType) (b : ℚ) (l : List StmtEntry) :
    ((annotateFrom t b l).map StmtLine.balance).getLastD b =
      b + (l.map (stmtDelta t)).sum := by
  induction l generalizing b with
  | nil => simp [annotateFrom]
  | cons e es ih =>
    rw [annotateFrom, List.map_cons, List.getLastD_cons, ih]
    simp
    ring

theorem mapFilterComm {α β : Type} (f : α → β) (p : β → Bool) (l : List α) :
    (l.map f).filter p = (l.filter (fun x => p (f x))).map f := by
  induction l with
  | nil => rfl
  | cons x xs ih =>
    by_cases h : p (f x) <;> simp [List.filter_cons, h, ih]

theorem sum_map_neg {α : Type} (f : α → ℚ) (l : List α) :
    (l.map (fun x => -(f x))).sum = -((l.map f).sum) := by
  induction l with
  | nil => simp
  | cons x xs ih => simp [ih]; ring

theorem stmtDateLe_total : ∀ x y, stmtDateLe x y = false → stmtDateLe y x = true := by
  intro x y h
  simp [stmtDateLe] at h ⊢
  omega

theorem stmtDateLe_trans :
    ∀ x y z, stmtDateLe x y = true → stmtDateLe y z = true → stmtDateLe x z = true := by
  intro x y z h1 h2
  simp [stmtDateLe] at h1 h2 ⊢
  omega

theorem entries_sorted (a : AppAccount) :
    (a.entries).Pairwise (fun x y => stmtDateLe x y = true) :=
  sortLe_sorted stmtDateLe stmtDateLe_total stmtDateLe_trans _

/-- Modelled from the spec's words for the ordering clause of `statement`:
"sorted by date (stable order for same-date entries = insertion order)" —
the rows of the interleaved insertion sequence of debit/credit calls, stably
sorted by date, so that same-date rows keep the order in which the calls were
made. -/
def specInsertionOrderRows (ops : List AccOp) : List StmtEntry :=
  sortLe stmtDateLe (ops.map (fun op =>
    match op with
    | .debit amt d w => debRow ⟨amt, d, w⟩
    | .credit amt d w => credRow ⟨amt, d, w⟩))

/-- The account of the C5 counterexample: a credit call followed by a debit
call on the same date. -/
def c5Ops : List AccOp := [.credit 5 "first" 0, .debit 3 "second" 0]

/-- C5 counterexample: the claim says same-date entries are kept in insertion
order.  For an account built by `credit(5, date 0)` then `debit(3, date 0)`,
the insertion order is credit-first, but `Account.entries` concatenates all
debit rows before all credit rows prior to the stable date sort, so the
statement lists the debit row first: the code's row order differs from the
claimed insertion order on this input. -/
theorem C5_counterexample :
    ((applyOps (AppAccount.new "Cash" .Asset "Current Assets") c5Ops).statement
        none none).map (fun x => x.entry.typ) = ["debit", "credit"] ∧
    (specInsertionOrderRows c5Ops).map StmtEntry.typ = ["credit", "debit"] ∧
    ((applyOps (AppAccount.new "Cash" .Asset "Current Assets") c5Ops).statement
        none none).map StmtLine.entry ≠ specInsertionOrderRows c5Ops := by
  refine ⟨by decide, by decide, by decide⟩

/-- C5 (amended): `statement(start_date, end_date)` returns exactly the rows
of `entries` whose date lies within the inclusive bounds, sorted by date; for
each date, the rows are the account's debit rows (in insertion order)
followed by its credit rows (in insertion order) — not the global insertion
order; the running balance accumulates by the account's polarity, and with
`end_date` as the only bound the last running balance equals the
polarity-adjusted balance restricted to the same date filter (zero when the
filter is empty). -/
theorem C5_amended_statement_spec :
    (∀ (a : AppAccount) (s e : Option Int),
      (a.statement s e).map StmtLine.entry = (a.entries).filter (inBounds s e)) ∧
    (∀ (a : AppAccount) (s e : Option Int),
      (a.statement s e).Pairwise (fun x y => x.entry.date ≤ y.entry.date)) ∧
    (∀ (a : AppAccount) (d : Int),
      (a.entries).filter (fun x => decide (x.date = d)) =
        (a.debits.map debRow).filter (fun x => decide (x.date = d)) ++
          (a.credits.map credRow).filter (fun x => decide (x.date = d))) ∧
    (∀ (a : AppAccount) (ed : Int),
      ((a.statement none (some ed)).map StmtLine.balance).getLastD 0 =
        (if ACCOUNT_TYPES a.type = "credit" then
          -(((a.debits.filter (fun e => decide (e.date ≤ ed))).map AppEntry.amount).sum -
            ((a.credits.filter (fun e => decide (e.date ≤ ed))).map AppEntry.amount).sum)
         else
          ((a.debits.filter (fun e => decide (e.date ≤ ed))).map AppEntry.amount).sum -
            ((a.credits.filter (fun e => decide (e.date ≤ ed))).map AppEntry.amount).sum)) := by
  refine ⟨?_, ?_, ?_, ?_⟩
  · intro a s e
    rw [AppAccount.statement, annotateFrom_map_entry]
  · intro a s e
    have h1 : ((a.entries).filter (inBounds s e)).Pairwise
        (fun x y => stmtDateLe x y = true) :=
      (entries_sorted a).sublist (List.filter_sublist _)
    have h2 : ((a.statement s e).map StmtLine.entry).Pairwise
        (fun x y => stmtDateLe x y = true) := by
      rw [AppAccount.statement, annotateFrom_map_entry]
      exact h1
    have h3 := List.pairwise_map.mp h2
    refine h3.imp ?_
    intro x y hxy
    simpa [stmtDateLe] using hxy
  · intro a d
    rw [AppAccount.entries,
      filter_sortLe stmtDateLe _ _ ?_, List.filter_append]
    intro x y hx hle
    simp [stmtDateLe] at hle
    simp at hx
    simp
    omega
  · intro a ed
    rw [AppAccount.statement, annotateFrom_last_balance, zero_add]
    have hperm : ((a.entries).filter (inBounds none (some ed))).Perm
        ((a.debits.map debRow ++ a.credits.map credRow).filter (inBounds none (some ed))) := by
      rw [AppAccount.entries]
      exact (sortLe_perm stmtDateLe _).filter _
    rw [(hperm.map (stmtDelta a.type)).sum_eq, List.filter_append, List.map_append,
      List.sum_append, mapFilterComm debRow _ a.debits, mapFilterComm credRow _ a.credits,
      List.map_map, List.map_map]
    by_cases hcr : ACCOUNT_TYPES a.type = "credit"
    · rw [if_pos hcr]
      have hfd : (fun x => inBounds none (some ed) (debRow x)) =
          (fun e : AppEntry => decide (e.date ≤ ed)) := by
        funext x
        simp [inBounds, debRow]
      have hfc : (fun x => inBounds none (some ed) (credRow x)) =
          (fun e : AppEntry => decide (e.date ≤ ed)) := by
        funext x
        simp [inBounds, credRow]
      have hgd : (stmtDelta a.type ∘ debRow) = (fun e : AppEntry => -(e.amount)) := by
        funext x
        simp [stmtDelta, debRow, hcr]
      have hgc : (stmtDelta a.type ∘ credRow) = (fun e : AppEntry => e.amount) := by
        funext x
        simp [stmtDelta, credRow, hcr]
      rw [hfd, hfc, hgd, hgc, sum_map_neg]
      ring
    · rw [if_neg hcr]
      have hfd : (fun x => inBounds none (some ed) (debRow x)) =
          (fun e : AppEntry => decide (e.date ≤ ed)) := by
        funext x
        simp [inBounds, debRow]
      have hfc : (fun x => inBounds none (some ed) (credRow x)) =
          (fun e : AppEntry => decide (e.date ≤ ed)) := by
        funext x
        simp [inBounds, credRow]
      have hgd : (stmtDelta a.type ∘ debRow) = (fun e : AppEntry => e.amount) := by
        funext x
        simp [stmtDelta, debRow, hcr]
      have hgc : (stmtDelta a.type ∘ credRow) = (fun e : AppEntry => -(e.amount)) := by
        funext x
        simp [stmtDelta, credRow, hcr]
      rw [hfd, hfc, hgd, hgc, sum_map_neg]
      ring

/-! ### C2 — the double-entry trial-balance invariant (app.py) -/

/-- The sum of the raw balances (`total_debit - total_credit`) of all
accounts: zero exactly when total postings balance. -/
def rawSumApp (m : List (String × AppAccount)) : ℚ :=
  (m.map (fun p => p.2.raw_balance)).sum

theorem raw_balance_debit (a : AppAccount) (amt : ℚ) (d : String) (w : Int) :
    (a.debit amt d w).raw_balance = a.raw_balance + amt := by
  simp [AppAccount.debit, AppAccount.raw_balance, AppAccount.total_debit,
    AppAccount.total_credit]
  ring

theorem raw_balance_credit (a : AppAccount) (amt : ℚ) (d : String) (w : Int) :
    (a.credit amt d w).raw_balance = a.raw_balance - amt := by
  simp [AppAccount.credit, AppAccount.raw_balance, AppAccount.total_debit,
    AppAccount.total_credit]
  ring

theorem rawSum_aupdate (n : String) (f : AppAccount → AppAccount)
    (m : List (String × AppAccount)) (a : AppAccount) (h : alookup n m = some a) :
    rawSumApp (aupdate n f m) = rawSumApp m + ((f a).raw_balance - a.raw_balance) := by
  induction m with
  | nil => simp [alookup] at h
  | cons p rest ih =>
    obtain ⟨k, v⟩ := p
    by_cases hk : k = n
    · subst hk
      rw [alookup] at h
      simp only [if_pos rfl] at h
      injection h with h
      subst h
      simp [aupdate, rawSumApp]
      ring
    · rw [alookup] at h
      rw [if_neg hk] at h
      have := ih h
      simp [aupdate, hk, rawSumApp] at this ⊢
      linarith

theorem applyAppDebits_ok_rawSum (desc : String) (dt : Int) :
    ∀ (ds : List (String × ℚ)) (m m' : List (String × AppAccount)),
      applyAppDebits m desc dt ds = (.ok (), m') →
      rawSumApp m' = rawSumApp m + (ds.map Prod.snd).sum := by
  intro ds
  induction ds with
  | nil =>
    intro m m' h
    rw [applyAppDebits] at h
    injection h with h1 h2
    subst h2
    simp
  | cons p rest ih =>
    intro m m' h
    obtain ⟨n, amt⟩ := p
    rw [applyAppDebits] at h
    cases hl : alookup n m with
    | none => rw [hl] at h; simp at h
    | some a =>
      rw [hl] at h
      have := ih _ _ h
      rw [this, rawSum_aupdate n _ m a hl, raw_balance_debit]
      simp
      ring

theorem applyAppCredits_ok_rawSum (desc : String) (dt : Int) :
    ∀ (cs : List (String × ℚ)) (m m' : List (String × AppAccount)),
      applyAppCredits m desc dt cs = (.ok (), m') →
      rawSumApp m' = rawSumApp m - (cs.map Prod.snd).sum := by
  intro cs
  induction cs with
  | nil =>
    intro m m' h
    rw [applyAppCredits] at h
    injection h with h1 h2
    subst h2
    simp
  | cons p rest ih =>
    intro m m' h
    obtain ⟨n, amt⟩ := p
    rw [applyAppCredits] at h
    cases hl : alookup n m with
    | none => rw [hl] at h; simp at h
    | some a =>
      rw [hl] at h
      have := ih _ _ h
      rw [this, rawSum_aupdate n _ m a hl, raw_balance_credit]
      simp
      ring

theorem validateTransactionApp_ok_sums {debits credits : List (String × ℚ)}
    (h : validateTransactionApp debits credits = .ok ()) :
    (debits.map Prod.snd).sum = (credits.map Prod.snd).sum := by
  rw [validateTransactionApp] at h
  by_cases h1 : debits = [] ∨ credits = []
  · rw [if_pos h1] at h
    simp at h
  · rw [if_neg h1] at h
    by_cases h2 : (debits.map Prod.snd).sum = (credits.map Prod.snd).sum
    · exact h2
    · rw [if_pos h2] at h
      simp at h

theorem postTransactionApp_ok_rawSum {S S' : AppState} {debits credits : List (String × ℚ)}
    {desc : String} {dt : Int} {tx : AppTx}
    (h : postTransactionApp S debits credits desc dt = (.ok tx, S')) :
    rawSumApp S'.accounts = rawSumApp S.accounts := by
  rw [postTransactionApp] at h
  cases hv : validateTransactionApp debits credits with
  | error e => rw [hv] at h; simp at h
  | ok u =>
    cases u
    rw [hv] at h
    dsimp only at h
    have hsums := validateTransactionApp_ok_sums hv
    rcases hae : applyAppDebits S.accounts desc dt debits with ⟨r₁, m₁⟩
    rw [hae] at h
    cases r₁ with
    | error e => simp at h
    | ok u₁ =>
      cases u₁
      dsimp only at h
      rcases hac : applyAppCredits m₁ desc dt credits with ⟨r₂, m₂⟩
      rw [hac] at h
      cases r₂ with
      | error e => simp at h
      | ok u₂ =>
        cases u₂
        dsimp only at h
        injection h with h1 h2
        subst h2
        have e1 := applyAppDebits_ok_rawSum desc dt debits S.accounts m₁ hae
        have e2 := applyAppCredits_ok_rawSum desc dt credits m₁ m₂ hac
        dsimp only
        rw [e2, e1, hsums]
        ring

/-- The states reachable from app.py's freshly seeded module state by
sequences of successful `post_transaction` calls. -/
inductive ReachableApp : AppState → Prop where
  | seed : ReachableApp initialAppState
  | post (S S' : AppState) (debits credits : List (String × ℚ)) (description : String)
      (tx_date : Int) (tx : AppTx) :
      ReachableApp S →
      postTransactionApp S debits credits description tx_date = (.ok tx, S') →
      ReachableApp S'

theorem reachable_rawSum {S : AppState} (h : ReachableApp S) :
    rawSumApp S.accounts = 0 := by
  induction h with
  | seed =>
    simp [initialAppState, initialAppAccounts, INITIAL_ACCOUNTS, rawSumApp, AppAccount.new,
      AppAccount.raw_balance, AppAccount.total_debit, AppAccount.total_credit]
  | post S S' debits credits description tx_date tx hS hpost ih =>
    rw [postTransactionApp_ok_rawSum hpost]
    exact ih

theorem sum_map_sub {α : Type} (f g : α → ℚ) (l : List α) :
    (l.map f).sum - (l.map g).sum = (l.map (fun x => f x - g x)).sum := by
  induction l with
  | nil => simp
  | cons x xs ih => simp [← ih]; ring

theorem trialColumns_sub (a : AppAccount) :
    (trialColumns a none).1 - (trialColumns a none).2 = a.raw_balance := by
  have hb : a.balance =
      if ACCOUNT_TYPES a.type = "credit" then -a.raw_balance else a.raw_balance := rfl
  simp only [trialColumns, accountReportBalance]
  rw [hb]
  split_ifs <;> simp <;> linarith

theorem trialTotals_sub (m : List (String × AppAccount)) :
    (trialTotals m none).1 - (trialTotals m none).2 = rawSumApp m := by
  simp only [trialTotals]
  rw [sum_map_sub]
  have hcong : (sortLe accSortLe (m.map Prod.snd)).map
      (fun a => (trialColumns a none).1 - (trialColumns a none).2) =
      (sortLe accSortLe (m.map Prod.snd)).map AppAccount.raw_balance :=
    List.map_congr_left (fun a _ => trialColumns_sub a)
  rw [hcong, ((sortLe_perm accSortLe (m.map Prod.snd)).map AppAccount.raw_balance).sum_eq,
    List.map_map]
  rfl

/-- C2: in every ledger state reachable from the seeded chart of accounts by
successful postings, the trial balance's debit-column total equals its
credit-column total (`is_balanced` is true), whatever mix of account types
and abnormal (negative) balances the accounts have — abnormal balances are
presented as positive amounts in the opposite column and cancel exactly. -/
theorem C2_trial_balance_always_balanced (S : AppState) (h : ReachableApp S) :
    (trialTotals S.accounts none).1 = (trialTotals S.accounts none).2 := by
  have h1 := trialTotals_sub S.accounts
  rw [reachable_rawSum h] at h1
  linarith

/-- C2 witness: the freshly seeded state is reachable and its trial balance
is balanced. -/
theorem C2_witness :
    (trialTotals initialAppState.accounts none).1 =
      (trialTotals initialAppState.accounts none).2 :=
  C2_trial_balance_always_balanced initialAppState ReachableApp.seed

/-! ### C1 — posting atomicity (double_entry.py lines 108-141) -/

/-- The lines of an entry that target account `c`. -/
def linesFor (c : String) (lines : List DEEntryLine) : List DEEntryLine :=
  lines.filter (fun l => l.account = c)

/-- The cumulative effect on one account of applying a list of its lines:
all its debit lines appended to the debit list, all its credit lines to the
credit list, in order. -/
def appendLinesAcc (jid : Nat) (a : DEAccount) (ls : List DEEntryLine) : DEAccount :=
  { a with
    debits := a.debits ++ ((ls.filter (fun l => l.is_debit)).map (fun l => (jid, l.amount))),
    credits := a.credits ++ ((ls.filter (fun l => !l.is_debit)).map (fun l => (jid, l.amount))) }

theorem appendLinesAcc_nil (jid : Nat) (a : DEAccount) : appendLinesAcc jid a [] = a := by
  simp [appendLinesAcc]

theorem appendLinesAcc_cons (jid : Nat) (l : DEEntryLine) (a : DEAccount)
    (ls : List DEEntryLine) :
    appendLinesAcc jid (applyLineAcc jid l a) ls = appendLinesAcc jid a (l :: ls) := by
  by_cases h : l.is_debit <;>
    simp [applyLineAcc, appendLinesAcc, List.filter_cons, h]

theorem applyDELines_ok (jid : Nat) :
    ∀ (lines : List DEEntryLine) (L : DELedger),
      (∀ l ∈ lines, (alookup l.account L.accounts).isSome = true) →
      ∃ L', applyDELines L jid lines = (.ok (), L') ∧
        (∀ c a, alookup c L.accounts = some a →
          alookup c L'.accounts = some (appendLinesAcc jid a (linesFor c lines))) ∧
        L'.accounts.map Prod.fst = L.accounts.map Prod.fst ∧
        L'.journal = L.journal ∧ L'.nextId = L.nextId := by
  intro lines
  induction lines with
  | nil =>
    intro L hacc
    refine ⟨L, rfl, ?_, rfl, rfl, rfl⟩
    intro c a h
    rw [linesFor, List.filter_nil, appendLinesAcc_nil, h]
  | cons l rest ih =>
    intro L hacc
    have hl : (alookup l.account L.accounts).isSome = true := hacc l (by simp)
    obtain ⟨a₀, ha₀⟩ := Option.isSome_iff_exists.mp hl
    have hstep : applyDELines L jid (l :: rest) =
        applyDELines
          { L with accounts := aupdate l.account (applyLineAcc jid l) L.accounts } jid rest := by
      simp only [applyDELines, ha₀]
    have hacc₁ : ∀ l' ∈ rest,
        (alookup l'.account
          (aupdate l.account (applyLineAcc jid l) L.accounts)).isSome = true := by
      intro l' hl'
      rw [alookup_isSome_aupdate]
      exact hacc l' (by simp [hl'])
    obtain ⟨L', heq, hper, hkeys, hj, hn⟩ :=
      ih { L with accounts := aupdate l.account (applyLineAcc jid l) L.accounts } hacc₁
    refine ⟨L', hstep.trans heq, ?_, ?_, hj, hn⟩
    · intro c a h
      by_cases hc : c = l.account
      · have h1 : alookup c (aupdate l.account (applyLineAcc jid l) L.accounts) =
            some (applyLineAcc jid l a) := by
          rw [hc, alookup_aupdate_self, ← hc, h]
          rfl
        have h2 := hper c (applyLineAcc jid l a) h1
        rw [h2, appendLinesAcc_cons]
        have hlf : linesFor c (l :: rest) = l :: linesFor c rest := by
          rw [linesFor, linesFor, List.filter_cons, if_pos (by simp [hc])]
        rw [hlf]
      · have hc' : c ≠ l.account := hc
        have h1 : alookup c (aupdate l.account (applyLineAcc jid l) L.accounts) = some a := by
          rw [alookup_aupdate_ne _ _ hc', h]
        have := hper c a h1
        rw [this]
        have hlf : linesFor c (l :: rest) = linesFor c rest := by
          rw [linesFor, List.filter_cons]
          simp [linesFor]
          intro hcc
          exact absurd hcc.symm hc'
        rw [hlf]
    · rw [hkeys]
      exact keys_aupdate _ _ _

theorem alookup_append_of_none {κ α : Type} [DecidableEq κ] {k : κ} {m : List (κ × α)}
    (h : alookup k m = none) (v : α) : alookup k (m ++ [(k, v)]) = some v := by
  induction m with
  | nil => simp [alookup]
  | cons p rest ih =>
    obtain ⟨k', v'⟩ := p
    by_cases hk : k' = k
    · rw [alookup, if_pos hk] at h
      cases h
    · rw [alookup, if_neg hk] at h
      rw [List.cons_append, alookup, if_neg hk]
      exact ih h

theorem aupdate_append_of_none {κ α : Type} [DecidableEq κ] {k : κ} {m : List (κ × α)}
    (h : alookup k m = none) (f : α → α) (v : α) :
    aupdate k f (m ++ [(k, v)]) = m ++ [(k, f v)] := by
  induction m with
  | nil => simp [aupdate]
  | cons p rest ih =>
    obtain ⟨k', v'⟩ := p
    by_cases hk : k' = k
    · rw [alookup, if_pos hk] at h
      cases h
    · rw [alookup, if_neg hk] at h
      rw [List.cons_append, aupdate, if_neg hk, ih h, List.cons_append]

theorem postDE_ok (L : DELedger) (desc : String) (lines : List DEEntryLine)
    (hpos : ∀ l ∈ lines, 0 < l.amount)
    (hbal : debitTotal lines = creditTotal lines)
    (hacc : ∀ l ∈ lines, (alookup l.account L.accounts).isSome = true)
    (hfresh : alookup L.nextId L.journal = none) :
    ∃ L', L.post_transaction desc lines =
        (.ok ⟨L.nextId, desc, lines, true⟩, L') ∧
      (∀ c a, alookup c L.accounts = some a →
        alookup c L'.accounts = some (appendLinesAcc L.nextId a (linesFor c lines))) ∧
      L'.accounts.map Prod.fst = L.accounts.map Prod.fst ∧
      L'.journal = L.journal ++ [(L.nextId, ⟨L.nextId, desc, lines, true⟩)] ∧
      L'.nextId = L.nextId + 1 := by
  have hany : (lines.any (fun l => l.amount ≤ 0)) = false := by
    rw [List.any_eq_false]
    intro l hl
    have := hpos l hl
    simp
    omega
  have hnew : L.new_journal_entry desc lines =
      .ok (L.nextId,
        { L with journal := L.journal ++ [(L.nextId, ⟨L.nextId, desc, lines, false⟩)],
                 nextId := L.nextId + 1 }) := by
    rw [DELedger.new_journal_entry]
    rw [if_neg (by simp [hany]), if_neg (not_not_intro hbal)]
  have hacc₁ : ∀ l ∈ lines, (alookup l.account
      ({ L with journal := L.journal ++ [(L.nextId, ⟨L.nextId, desc, lines, false⟩)],
                nextId := L.nextId + 1 } : DELedger).accounts).isSome = true := hacc
  obtain ⟨L₂, heq, hper, hkeys, hj, hn⟩ := applyDELines_ok L.nextId lines _ hacc₁
  have hjlook : alookup L.nextId
      ({ L with journal := L.journal ++ [(L.nextId, ⟨L.nextId, desc, lines, false⟩)],
                nextId := L.nextId + 1 } : DELedger).journal =
      some ⟨L.nextId, desc, lines, false⟩ := alookup_append_of_none hfresh _
  have hpost : L.post_transaction desc lines =
      (.ok ⟨L.nextId, desc, lines, true⟩,
        { L₂ with journal :=
            aupdate L.nextId (fun j => { j with posted := true }) L₂.journal }) := by
    rw [DELedger.post_transaction]
    rw [hnew]
    dsimp only
    rw [DELedger.post_entry, hjlook]
    dsimp only
    rw [if_neg (by simp), heq]
  refine ⟨_, hpost, ?_, ?_, ?_, ?_⟩
  · intro c a h
    exact hper c a h
  · exact hkeys
  · dsimp only
    rw [hj]
    dsimp only
    rw [aupdate_append_of_none hfresh]
  · exact hn

/-- The lines of the C1 counterexample: a balanced, all-positive entry whose
second line references the undefined account code `'9999'`. -/
def c1BadLines : List DEEntryLine := [⟨"1000", 5000, true⟩, ⟨"9999", 5000, false⟩]

/-- C1 counterexample: on the seeded ledger, posting a balanced, all-positive
entry that references the undefined account `'9999'` fails — yet Cash
(`'1000'`) has already received the first line's debit, and the failed entry
sits (unposted) in the journal: the call neither applied all lines nor left
every account and the history as they were, contradicting the claimed
all-or-nothing behaviour. -/
theorem C1_counterexample :
    exceptOk (seedLedger.post_transaction "cash sale" c1BadLines).1 = false ∧
    (alookup "1000" (seedLedger.post_transaction "cash sale" c1BadLines).2.accounts).map
        DEAccount.debits = some [(0, 5000)] ∧
    (alookup "1000" seedLedger.accounts).map DEAccount.debits = some [] ∧
    (seedLedger.post_transaction "cash sale" c1BadLines).2.journal ≠ seedLedger.journal := by
  refine ⟨by decide, by decide, by decide, by decide⟩

/-- C1 (amended): posting is atomic for the checks `new_journal_entry`
actually performs — an entry with a non-positive line amount or unbalanced
totals is rejected with the ledger (accounts and journal) completely
unchanged; an entry that passes validation and references only existing
accounts is applied in full (every line appended to its account) and recorded
posted in the journal under a fresh id.  The unknown-account case is the
exception established by the counterexample: account existence is only
checked line-by-line during application, so such a failure can leave a strict
prefix of the lines applied and the unposted entry in the journal. -/
theorem C1_amended_posting_atomicity :
    (∀ (L : DELedger) (desc : String) (lines : List DEEntryLine),
      ((∃ l ∈ lines, l.amount ≤ 0) ∨ debitTotal lines ≠ creditTotal lines) →
        (L.post_transaction desc lines).2 = L ∧
          exceptOk (L.post_transaction desc lines).1 = false) ∧
    (∀ (L : DELedger) (desc : String) (lines : List DEEntryLine),
      (∀ l ∈ lines, 0 < l.amount) →
      debitTotal lines = creditTotal lines →
      (∀ l ∈ lines, (alookup l.account L.accounts).isSome = true) →
      alookup L.nextId L.journal = none →
      (L.post_transaction desc lines).1 = .ok ⟨L.nextId, desc, lines, true⟩ ∧
      (∀ c a, alookup c L.accounts = some a →
        alookup c (L.post_transaction desc lines).2.accounts =
          some (appendLinesAcc L.nextId a (linesFor c lines))) ∧
      (L.post_transaction desc lines).2.journal =
        L.journal ++ [(L.nextId, ⟨L.nextId, desc, lines, true⟩)]) := by
  constructor
  · intro L desc lines hbad
    by_cases hany : lines.any (fun l => l.amount ≤ 0)
    · have hnew : L.new_journal_entry desc lines =
          .error "All line amounts must be positive" := by
        rw [DELedger.new_journal_entry, if_pos hany]
      rw [DELedger.post_transaction, hnew]
      exact ⟨rfl, rfl⟩
    · have hbal : debitTotal lines ≠ creditTotal lines := by
        rcases hbad with hex | hne
        · exfalso
          obtain ⟨l, hl, hle⟩ := hex
          exact hany (List.any_eq_true.mpr ⟨l, hl, by simpa⟩)
        · exact hne
      have hnew : L.new_journal_entry desc lines = .error "Journal entry unbalanced" := by
        rw [DELedger.new_journal_entry, if_neg hany, if_pos hbal]
      rw [DELedger.post_transaction, hnew]
      exact ⟨rfl, rfl⟩
  · intro L desc lines hpos hbal hacc hfresh
    obtain ⟨L', hpost, hper, hkeys, hj, hn⟩ := postDE_ok L desc lines hpos hbal hacc hfresh
    rw [hpost]
    exact ⟨rfl, hper, hj⟩

/-- C1 witness: posting a valid owner-investment entry on the seeded ledger
succeeds, appends the debit to Cash, and records the posted entry. -/
theorem C1_witness :
    ((seedLedger.post_transaction "Owner investment"
        [⟨"1000", 500000, true⟩, ⟨"3000", 500000, false⟩]).1 =
      .ok ⟨0, "Owner investment",
        [⟨"1000", 500000, true⟩, ⟨"3000", 500000, false⟩], true⟩) ∧
    alookup "1000" (seedLedger.post_transaction "Owner investment"
        [⟨"1000", 500000, true⟩, ⟨"3000", 500000, false⟩]).2.accounts =
      some ⟨"1000", "Cash", .Asset, [(0, 500000)], []⟩ := by
  have h := C1_amended_posting_atomicity.2 seedLedger "Owner investment"
    [⟨"1000", 500000, true⟩, ⟨"3000", 500000, false⟩]
    (by decide) (by decide) (by decide) (by decide)
  refine ⟨h.1, ?_⟩
  have h2 := h.2.1 "1000" ⟨"1000", "Cash", .Asset, [], []⟩ (by decide)
  rw [h2]
  decide

/-! ### C4 — closing the books (double_entry.py lines 233-262) -/

theorem alookup_mem {κ α : Type} [DecidableEq κ] {k : κ} {v : α} {m : List (κ × α)}
    (h : alookup k m = some v) : (k, v) ∈ m := by
  induction m with
  | nil => cases h
  | cons p rest ih =>
    obtain ⟨k', v'⟩ := p
    by_cases hk : k' = k
    · subst hk
      rw [alookup, if_pos rfl] at h
      injection h with h
      subst h
      exact List.mem_cons_self _ _
    · rw [alookup, if_neg hk] at h
      exact List.mem_cons_of_mem _ (ih h)

/-- The journal ids in use are all below the fresh-id counter (true of every
state the program builds, since `uuid4` ids are unique). -/
def DELedger.freshIds (L : DELedger) : Prop :=
  ∀ p ∈ L.journal, p.1 < L.nextId

theorem freshIds_alookup_none {L : DELedger} (hf : L.freshIds) :
    alookup L.nextId L.journal = none := by
  cases h : alookup L.nextId L.journal with
  | none => rfl
  | some je =>
    have := hf _ (alookup_mem h)
    simp at this

theorem freshIds_after_post {L L' : DELedger} {je : DEJournalEntry} (hf : L.freshIds)
    (hj : L'.journal = L.journal ++ [(L.nextId, je)]) (hn : L'.nextId = L.nextId + 1) :
    L'.freshIds := by
  intro p hp
  rw [hj] at hp
  rw [hn]
  rcases List.mem_append.mp hp with h | h
  · exact Nat.lt_succ_of_lt (hf p h)
  · rw [List.mem_singleton] at h
    subst h
    exact Nat.lt_succ_self _

theorem balance_append_debit (a : DEAccount) (jid : Nat) (amt : Int) :
    ({ a with debits := a.debits ++ [(jid, amt)] } : DEAccount).balance =
      a.balance + (if a.type = .Asset ∨ a.type = .Expense then amt else -amt) := by
  rw [DEAccount.balance, DEAccount.balance]
  by_cases h : a.type = .Asset ∨ a.type = .Expense <;> simp [h] <;> ring

theorem balance_append_credit (a : DEAccount) (jid : Nat) (amt : Int) :
    ({ a with credits := a.credits ++ [(jid, amt)] } : DEAccount).balance =
      a.balance + (if a.type = .Asset ∨ a.type = .Expense then -amt else amt) := by
  rw [DEAccount.balance, DEAccount.balance]
  by_cases h : a.type = .Asset ∨ a.type = .Expense <;> simp [h] <;> ring

theorem postPair_ok (L : DELedger) (desc : String) (cd cc : String) (amt : Int)
    (hne : cd ≠ cc) (hamt : 0 < amt) (ad ac : DEAccount)
    (hcd : alookup cd L.accounts = some ad) (hcc : alookup cc L.accounts = some ac)
    (hfresh : alookup L.nextId L.journal = none) :
    ∃ L', L.post_transaction desc [⟨cd, amt, true⟩, ⟨cc, amt, false⟩] =
        (.ok ⟨L.nextId, desc, [⟨cd, amt, true⟩, ⟨cc, amt, false⟩], true⟩, L') ∧
      alookup cd L'.accounts = some { ad with debits := ad.debits ++ [(L.nextId, amt)] } ∧
      alookup cc L'.accounts = some { ac with credits := ac.credits ++ [(L.nextId, amt)] } ∧
      (∀ c a, c ≠ cd → c ≠ cc → alookup c L.accounts = some a →
        alookup c L'.accounts = some a) ∧
      L'.accounts.map Prod.fst = L.accounts.map Prod.fst ∧
      L'.journal = L.journal ++
        [(L.nextId, ⟨L.nextId, desc, [⟨cd, amt, true⟩, ⟨cc, amt, false⟩], true⟩)] ∧
      L'.nextId = L.nextId + 1 := by
  have hpos : ∀ l ∈ [(⟨cd, amt, true⟩ : DEEntryLine), ⟨cc, amt, false⟩], 0 < l.amount := by
    intro l hl
    simp at hl
    rcases hl with rfl | rfl <;> exact hamt
  have hbal : debitTotal [(⟨cd, amt, true⟩ : DEEntryLine), ⟨cc, amt, false⟩] =
      creditTotal [(⟨cd, amt, true⟩ : DEEntryLine), ⟨cc, amt, false⟩] := by
    simp [debitTotal, creditTotal]
  have hacc : ∀ l ∈ [(⟨cd, amt, true⟩ : DEEntryLine), ⟨cc, amt, false⟩],
      (alookup l.account L.accounts).isSome = true := by
    intro l hl
    simp at hl
    rcases hl with rfl | rfl
    · rw [hcd]; rfl
    · rw [hcc]; rfl
  obtain ⟨L', hpost, hper, hkeys, hj, hn⟩ := postDE_ok L desc _ hpos hbal hacc hfresh
  have hccd : (cc = cd) = False := by
    simp
    intro h
    exact hne h.symm
  have hcd' : alookup cd L'.accounts =
      some { ad with debits := ad.debits ++ [(L.nextId, amt)] } := by
    rw [hper cd ad hcd]
    have : linesFor cd [(⟨cd, amt, true⟩ : DEEntryLine), ⟨cc, amt, false⟩] =
        [⟨cd, amt, true⟩] := by
      simp [linesFor, List.filter_cons, hccd]
    rw [this]
    simp [appendLinesAcc]
  have hcc' : alookup cc L'.accounts =
      some { ac with credits := ac.credits ++ [(L.nextId, amt)] } := by
    rw [hper cc ac hcc]
    have : linesFor cc [(⟨cd, amt, true⟩ : DEEntryLine), ⟨cc, amt, false⟩] =
        [⟨cc, amt, false⟩] := by
      simp [linesFor, List.filter_cons, hne]
    rw [this]
    simp [appendLinesAcc]
  refine ⟨L', hpost, hcd', hcc', ?_, hkeys, hj, hn⟩
  intro c a hc1 hc2 h
  rw [hper c a h]
  have hx1 : (cd = c) = False := by
    simp
    intro h'
    exact hc1 h'.symm
  have hx2 : (cc = c) = False := by
    simp
    intro h'
    exact hc2 h'.symm
  have : linesFor c [(⟨cd, amt, true⟩ : DEEntryLine), ⟨cc, amt, false⟩] = [] := by
    simp [linesFor, List.filter_cons, hx1, hx2]
  rw [this, appendLinesAcc_nil]

theorem alookup_isSome_iff_mem {κ α : Type} [DecidableEq κ] (k : κ) (m : List (κ × α)) :
    (alookup k m).isSome = true ↔ k ∈ m.map Prod.fst := by
  induction m with
  | nil => simp [alookup]
  | cons p rest ih =>
    obtain ⟨k', v⟩ := p
    by_cases hk : k' = k
    · subst hk
      simp [alookup]
    · simp [alookup, hk, ih]
      intro h
      exact absurd h.symm hk

theorem alookup_none_of_keys_eq {κ α : Type} [DecidableEq κ] {k : κ}
    {m m' : List (κ × α)} (hkeys : m'.map Prod.fst = m.map Prod.fst)
    (h : alookup k m = none) : alookup k m' = none := by
  apply alookup_eq_none_of_not_mem
  rw [hkeys]
  intro hmem
  have := (alookup_isSome_iff_mem k m).mpr hmem
  rw [h] at this
  cases this

/-- The contribution of one snapshot code to `total_expense` as the closing
loop reads it: the balance when the code names an `Expense` account, else 0. -/
def expTerm (L : DELedger) (c : String) : Int :=
  match alookup c L.accounts with
  | some a => if a.type = .Expense then a.balance else 0
  | none => 0

/-- The part of `total_expense` contributed by a list of snapshot codes. -/
def expSum (L : DELedger) (cs : List String) : Int :=
  (cs.map (expTerm L)).sum

theorem closeExpenses_noop (L : DELedger)
    (hzero : ∀ c a, alookup c L.accounts = some a → a.type = .Expense → a.balance = 0) :
    ∀ cs, closeExpenses L cs = (.ok (), L) := by
  intro cs
  induction cs with
  | nil => rfl
  | cons c rest ih =>
    cases hl : alookup c L.accounts with
    | none => simp only [closeExpenses, hl, ih]
    | some acct =>
      by_cases hty : acct.type = .Expense
      · have hz : acct.balance = 0 := hzero c acct hl hty
        simp only [closeExpenses, hl, if_pos hty, hz]
        simp only [ne_eq, not_true_eq_false, ite_false, if_neg]
        exact ih
      · simp only [closeExpenses, hl, if_neg hty, ih]


theorem expSum_cons (L : DELedger) (c : String) (cs : List String) :
    expSum L (c :: cs) = expTerm L c + expSum L cs := by
  simp [expSum]

theorem closeExpenses_spec :
    ∀ (cs : List String) (L : DELedger) (e3 : DEAccount),
      cs.Nodup →
      L.freshIds →
      alookup "3000" L.accounts = some e3 →
      e3.type = .Equity →
      (∀ c a, alookup c L.accounts = some a → a.type = .Expense → 0 ≤ a.balance) →
      ∃ L' e3',
        closeExpenses L cs = (.ok (), L') ∧
        L'.accounts.map Prod.fst = L.accounts.map Prod.fst ∧
        L'.freshIds ∧
        (∀ c, (alookup c L'.accounts).map DEAccount.type =
          (alookup c L.accounts).map DEAccount.type) ∧
        (∀ c a, alookup c L.accounts = some a → a.type ≠ .Expense → c ≠ "3000" →
          alookup c L'.accounts = some a) ∧
        (∀ c a, c ∉ cs → c ≠ "3000" → alookup c L.accounts = some a →
          alookup c L'.accounts = some a) ∧
        (∀ c a, c ∈ cs → alookup c L.accounts = some a → a.type = .Expense →
          ∃ a', alookup c L'.accounts = some a' ∧ a'.balance = 0) ∧
        alookup "3000" L'.accounts = some e3' ∧
        e3'.type = .Equity ∧
        e3'.balance = e3.balance - expSum L cs := by
  intro cs
  induction cs with
  | nil =>
    intro L e3 hnd hf h3 h3t hE
    refine ⟨L, e3, rfl, rfl, hf, fun c => rfl, ?_, ?_, ?_, h3, h3t, by simp [expSum]⟩
    · intro c a h _ _
      exact h
    · intro c a _ _ h
      exact h
    · intro c a hc _ _
      simp at hc
  | cons c0 cs ih =>
    intro L e3 hnd hf h3 h3t hE
    rw [List.nodup_cons] at hnd
    obtain ⟨hc0, hcs⟩ := hnd
    cases hl : alookup c0 L.accounts with
    | none =>
      obtain ⟨L', e3', hrec, hkeys, hf', htype, hnonexp, hnotin, hin, h3', h3t', hbal'⟩ :=
        ih L e3 hcs hf h3 h3t hE
      refine ⟨L', e3', ?_, hkeys, hf', htype, hnonexp, ?_, ?_, h3', h3t', ?_⟩
      · simp only [closeExpenses, hl]
        exact hrec
      · intro c a hcin hc3 h
        exact hnotin c a (fun hm => hcin (List.mem_cons_of_mem _ hm)) hc3 h
      · intro c a hcin h hty
        rcases List.mem_cons.mp hcin with rfl | hm
        · rw [h] at hl
          cases hl
        · exact hin c a hm h hty
      · rw [hbal']
        simp [expSum, expTerm, hl]
    | some acct =>
      by_cases hty : acct.type = .Expense
      · by_cases hz : acct.balance ≠ 0
        · -- close this expense: post a (debit '3000', credit c0) pair
          have hamt : 0 < acct.balance := by
            have := hE c0 acct hl hty
            omega
          have hc03 : c0 ≠ "3000" := by
            intro hc
            rw [hc, h3] at hl
            injection hl with hl
            have heq : AccountType.Equity = AccountType.Expense := by
              rw [← h3t, hl]
              exact hty
            cases heq
          have h3ne : ("3000" : String) ≠ c0 := fun h => hc03 h.symm
          obtain ⟨L₂, hpost, h3₂, hc₂, hother, hkeys₂, hj₂, hn₂⟩ :=
            postPair_ok L ("Close Expense " ++ acct.name) "3000" c0 acct.balance
              h3ne hamt e3 acct h3 hl (freshIds_alookup_none hf)
          have hf₂ : L₂.freshIds := freshIds_after_post hf hj₂ hn₂
          have hE₂ : ∀ c a, alookup c L₂.accounts = some a → a.type = .Expense →
              0 ≤ a.balance := by
            intro c a h hty'
            by_cases hcc : c = "3000"
            · rw [hcc, h3₂] at h
              injection h with h
              rw [← h] at hty'
              have heq : AccountType.Equity = AccountType.Expense := by
                rw [← h3t]
                exact hty'
              cases heq
            · by_cases hcc0 : c = c0
              · rw [hcc0, hc₂] at h
                injection h with h
                rw [← h, balance_append_credit, if_pos (Or.inr hty)]
                omega
              · have hmem : c ∈ L₂.accounts.map Prod.fst := alookup_mem_keys h
                rw [hkeys₂] at hmem
                obtain ⟨a₀, ha₀⟩ :=
                  Option.isSome_iff_exists.mp ((alookup_isSome_iff_mem c L.accounts).mpr hmem)
                rw [hother c a₀ hcc hcc0 ha₀] at h
                injection h with h
                subst h
                exact hE c a₀ ha₀ hty'
          obtain ⟨L', e3', hrec, hkeys', hf', htype', hnonexp', hnotin', hin', h3', h3t', hbal'⟩ :=
            ih L₂ { e3 with debits := e3.debits ++ [(L.nextId, acct.balance)] }
              hcs hf₂ h3₂ h3t hE₂
          have htype₂ : ∀ c, (alookup c L₂.accounts).map DEAccount.type =
              (alookup c L.accounts).map DEAccount.type := by
            intro c
            by_cases hcc : c = "3000"
            · rw [hcc, h3₂, h3]
              rfl
            · by_cases hcc0 : c = c0
              · rw [hcc0, hc₂, hl]
                rfl
              · cases hx : alookup c L.accounts with
                | none =>
                  rw [alookup_none_of_keys_eq hkeys₂ hx]
                | some a₀ =>
                  rw [hother c a₀ hcc hcc0 hx]
          refine ⟨L', e3', ?_, hkeys'.trans hkeys₂, hf', ?_, ?_, ?_, ?_, h3', h3t', ?_⟩
          · simp only [closeExpenses, hl, if_pos hty, if_pos hz]
            rw [hpost]
            exact hrec
          · intro c
            rw [htype' c, htype₂ c]
          · -- non-Expense accounts other than '3000' are untouched
            intro c a h htyne hc3
            have hcc0 : c ≠ c0 := by
              intro hcc0
              rw [hcc0, hl] at h
              injection h with h
              rw [← h] at htyne
              exact htyne hty
            have h₂ := hother c a hc3 hcc0 h
            exact hnonexp' c a h₂ htyne hc3
          · -- accounts outside the snapshot are untouched
            intro c a hcin hc3 h
            have hcc0 : c ≠ c0 := fun hcc0 => hcin (hcc0 ▸ List.mem_cons_self c0 cs)
            have h₂ := hother c a hc3 hcc0 h
            exact hnotin' c a (fun hm => hcin (List.mem_cons_of_mem _ hm)) hc3 h₂
          · -- every snapshot Expense account ends at balance zero
            intro c a hcin h htyc
            rcases List.mem_cons.mp hcin with rfl | hm
            · have ha : a = acct := by
                rw [h] at hl
                injection hl
              have hcc3 : c ≠ "3000" := by
                subst ha
                exact hc03
              have hfin := hnotin' c { acct with credits := acct.credits ++ [(L.nextId, acct.balance)] }
                hc0 hcc3 (by rw [hc₂])
              refine ⟨_, hfin, ?_⟩
              rw [balance_append_credit, if_pos (Or.inr hty)]
              ring
            · have hcc0 : c ≠ c0 := fun hcc => hc0 (hcc ▸ hm)
              have hcc3 : c ≠ "3000" := by
                intro hcc
                rw [hcc, h3] at h
                injection h with h
                have heq : AccountType.Equity = AccountType.Expense := by
                  rw [← h3t, h]
                  exact htyc
                cases heq
              have h₂ := hother c a hcc3 hcc0 h
              exact hin' c a hm h₂ htyc
          · -- equity balance: e3 − amt − expSum L₂ cs = e3 − expSum L (c0 :: cs)
            rw [hbal', balance_append_debit]
            have hif : (if e3.type = AccountType.Asset ∨ e3.type = AccountType.Expense
                then acct.balance else -acct.balance) = -acct.balance := by
              rw [if_neg]
              rw [h3t]
              simp
            rw [hif]
            have hsum : expSum L₂ cs = expSum L cs := by
              rw [expSum, expSum]
              congr 1
              apply List.map_congr_left
              intro c hm
              have hcc0 : c ≠ c0 := fun hcc => hc0 (hcc ▸ hm)
              by_cases hcc3 : c = "3000"
              · rw [expTerm, expTerm, hcc3, h3₂, h3]
                have h1 : ({ e3 with debits := e3.debits ++ [(L.nextId, acct.balance)] } :
                    DEAccount).type = e3.type := rfl
                rw [h1]
                simp [h3t]
              · rw [expTerm, expTerm]
                cases hx : alookup c L.accounts with
                | none => rw [alookup_none_of_keys_eq hkeys₂ hx]
                | some a₀ => rw [hother c a₀ hcc3 hcc0 hx]
            rw [hsum]
            have hterm : expTerm L c0 = acct.balance := by
              rw [expTerm, hl]
              simp [hty]
            rw [expSum_cons, hterm]
            ring
        · -- Expense account with zero balance: skipped, recurse unchanged
          have hz0 : acct.balance = 0 := by omega
          obtain ⟨L', e3', hrec, hkeys, hf', htype, hnonexp, hnotin, hin, h3', h3t', hbal'⟩ :=
            ih L e3 hcs hf h3 h3t hE
          refine ⟨L', e3', ?_, hkeys, hf', htype, hnonexp, ?_, ?_, h3', h3t', ?_⟩
          · simp only [closeExpenses, hl, if_pos hty, hz0]
            simp only [ne_eq, not_true_eq_false, ite_false, if_neg]
            exact hrec
          · intro c a hcin hc3 h
            exact hnotin c a (fun hm => hcin (List.mem_cons_of_mem _ hm)) hc3 h
          · intro c a hcin h htyc
            rcases List.mem_cons.mp hcin with rfl | hm
            · have ha : a = acct := by
                rw [h] at hl
                injection hl
              have hcc3 : c ≠ "3000" := by
                intro hcc
                rw [hcc, h3] at h
                injection h with h
                have heq : AccountType.Equity = AccountType.Expense := by
                  rw [← h3t, h]
                  exact htyc
                cases heq
              refine ⟨a, hnotin c a hc0 hcc3 h, ?_⟩
              rw [ha, hz0]
            · exact hin c a hm h htyc
          · rw [hbal']
            have hterm : expTerm L c0 = 0 := by
              rw [expTerm, hl]
              simp [hty, hz0]
            rw [expSum_cons, hterm]
            ring
      · -- not an Expense account: skipped
        obtain ⟨L', e3', hrec, hkeys, hf', htype, hnonexp, hnotin, hin, h3', h3t', hbal'⟩ :=
          ih L e3 hcs hf h3 h3t hE
        refine ⟨L', e3', ?_, hkeys, hf', htype, hnonexp, ?_, ?_, h3', h3t', ?_⟩
        · simp only [closeExpenses, hl, if_neg hty]
          exact hrec
        · intro c a hcin hc3 h
          exact hnotin c a (fun hm => hcin (List.mem_cons_of_mem _ hm)) hc3 h
        · intro c a hcin h htyc
          rcases List.mem_cons.mp hcin with rfl | hm
          · have ha : a = acct := by
              rw [h] at hl
              injection hl
            rw [ha] at htyc
            exact absurd htyc hty
          · exact hin c a hm h htyc
        · rw [hbal']
          have hterm : expTerm L c0 = 0 := by
            rw [expTerm, hl]
            simp [hty]
          rw [expSum_cons, hterm]
          ring

theorem expTerm_eq (L : DELedger) (c : String) (a : DEAccount)
    (h : alookup c L.accounts = some a) :
    expTerm L c = if a.type = .Expense then a.balance else 0 := by
  rw [expTerm, h]

theorem expSum_keys (L : DELedger) (hnd : (L.accounts.map Prod.fst).Nodup) :
    expSum L (L.accounts.map Prod.fst) = totalExpenseDE L := by
  rw [expSum, totalExpenseDE, List.map_map]
  congr 1
  apply List.map_congr_left
  intro p hp
  have hlook : alookup p.1 L.accounts = some p.2 := alookup_of_mem_nodup hnd hp
  simp [Function.comp, expTerm, hlook]

/-- C4 (amended): on a ledger with unique account codes where `'3000'` is the
Equity account, `'4000'` the closed Revenue account, and the balances of
`'4000'` and of every Expense account are non-negative, `close_books`
succeeds returning `balance('4000') - total expenses`; afterwards `'4000'`
and every Expense account have balance exactly 0 and the Equity balance has
increased by exactly that net income; Revenue accounts other than `'4000'`
(such as `'4100'` Sales Returns) are untouched; zero-amount closing entries
are skipped, so a second consecutive `close_books` posts nothing and returns
`(ok 0)` with the state unchanged. -/
theorem C4_close_books (L : DELedger) (e3 rv : DEAccount)
    (hnd : (L.accounts.map Prod.fst).Nodup)
    (hf : L.freshIds)
    (h3 : alookup "3000" L.accounts = some e3) (h3t : e3.type = .Equity)
    (h4 : alookup "4000" L.accounts = some rv) (h4t : rv.type = .Revenue)
    (hR : 0 ≤ rv.balance)
    (hE : ∀ p ∈ L.accounts, p.2.type = .Expense → 0 ≤ p.2.balance) :
    (L.close_books).1 = .ok (rv.balance - totalExpenseDE L) ∧
    (∀ c a', alookup c (L.close_books).2.accounts = some a' → a'.type = .Expense →
      a'.balance = 0) ∧
    (alookup "4000" (L.close_books).2.accounts).map DEAccount.balance = some 0 ∧
    (alookup "3000" (L.close_books).2.accounts).map DEAccount.balance =
      some (e3.balance + (rv.balance - totalExpenseDE L)) ∧
    (∀ c a, alookup c L.accounts = some a → a.type = .Revenue → c ≠ "4000" →
      alookup c (L.close_books).2.accounts = some a) ∧
    ((L.close_books).2).close_books = (.ok 0, (L.close_books).2) := by
  have hE' : ∀ c a, alookup c L.accounts = some a → a.type = .Expense → 0 ≤ a.balance :=
    fun c a h hty => hE (c, a) (alookup_mem h) hty
  have h43 : ("4000" : String) ≠ "3000" := by decide
  have hTR : totalRevenueDE L = rv.balance := by
    rw [totalRevenueDE, h4]
  -- Step 1: close revenue (or skip when its balance is zero).
  have step1 : ∃ (je : DEJournalEntry) (L₁ : DELedger) (e3₁ rv₁ : DEAccount),
      (if totalRevenueDE L ≠ 0 then
        L.post_transaction "Close Revenue"
          [⟨"4000", totalRevenueDE L, true⟩, ⟨"3000", totalRevenueDE L, false⟩]
       else (.ok ⟨0, "", [], true⟩, L)) = (Except.ok je, L₁) ∧
      L₁.accounts.map Prod.fst = L.accounts.map Prod.fst ∧
      L₁.freshIds ∧
      alookup "3000" L₁.accounts = some e3₁ ∧ e3₁.type = .Equity ∧
        e3₁.balance = e3.balance + rv.balance ∧
      alookup "4000" L₁.accounts = some rv₁ ∧ rv₁.type = .Revenue ∧ rv₁.balance = 0 ∧
      (∀ c a, c ≠ "3000" → c ≠ "4000" → alookup c L.accounts = some a →
        alookup c L₁.accounts = some a) ∧
      (∀ c, (alookup c L₁.accounts).map DEAccount.type =
        (alookup c L.accounts).map DEAccount.type) := by
    by_cases hR0 : rv.balance = 0
    · refine ⟨⟨0, "", [], true⟩, L, e3, rv, ?_, rfl, hf, h3, h3t, by rw [hR0]; ring,
        h4, h4t, hR0, fun c a _ _ h => h, fun c => rfl⟩
      rw [if_neg (by rw [hTR]; simpa using hR0)]
    · have hRpos : 0 < rv.balance := by omega
      obtain ⟨L₁, hpost, h4₁, h3₁, hother, hkeys₁, hj₁, hn₁⟩ :=
        postPair_ok L "Close Revenue" "4000" "3000" rv.balance h43 hRpos rv e3 h4 h3
          (freshIds_alookup_none hf)
      have hf₁ : L₁.freshIds := freshIds_after_post hf hj₁ hn₁
      refine ⟨⟨L.nextId, "Close Revenue",
          [⟨"4000", rv.balance, true⟩, ⟨"3000", rv.balance, false⟩], true⟩, L₁,
        { e3 with credits := e3.credits ++ [(L.nextId, rv.balance)] },
        { rv with debits := rv.debits ++ [(L.nextId, rv.balance)] }, ?_, hkeys₁, hf₁,
        h3₁, h3t, ?_, h4₁, h4t, ?_, ?_, ?_⟩
      · rw [if_pos (by rw [hTR]; simpa using hR0), hTR]
        exact hpost
      · rw [balance_append_credit, if_neg (by rw [h3t]; simp)]
      · rw [balance_append_debit, if_neg (by rw [h4t]; simp)]
        ring
      · intro c a hc3 hc4 h
        exact hother c a hc4 hc3 h
      · intro c
        by_cases hc3 : c = "3000"
        · rw [hc3, h3₁, h3]
          rfl
        · by_cases hc4 : c = "4000"
          · rw [hc4, h4₁, h4]
            rfl
          · cases hx : alookup c L.accounts with
            | none => rw [alookup_none_of_keys_eq hkeys₁ hx]
            | some a₀ => rw [hother c a₀ hc4 hc3 hx]
  obtain ⟨je, L₁, e3₁, rv₁, hstep1, hkeys₁, hf₁, h3₁, h3t₁, h3b₁, h4₁, h4t₁, h4b₁,
    hother₁, htype₁⟩ := step1
  -- Step 2: close each Expense account over the snapshot of codes.
  have hnd₁ : (L₁.accounts.map Prod.fst).Nodup := by
    rw [hkeys₁]
    exact hnd
  have hE₁ : ∀ c a, alookup c L₁.accounts = some a → a.type = .Expense →
      0 ≤ a.balance := by
    intro c a h hty
    by_cases hc3 : c = "3000"
    · rw [hc3, h3₁] at h
      injection h with h
      subst h
      rw [hty] at h3t₁
      cases h3t₁
    · by_cases hc4 : c = "4000"
      · rw [hc4, h4₁] at h
        injection h with h
        subst h
        rw [hty] at h4t₁
        cases h4t₁
      · have hmem : c ∈ L₁.accounts.map Prod.fst := alookup_mem_keys h
        rw [hkeys₁] at hmem
        obtain ⟨a₀, ha₀⟩ :=
          Option.isSome_iff_exists.mp ((alookup_isSome_iff_mem c L.accounts).mpr hmem)
        rw [hother₁ c a₀ hc3 hc4 ha₀] at h
        injection h with h
        subst h
        exact hE' c a₀ ha₀ hty
  obtain ⟨L₂, e3', hrec, hkeys₂, hf₂, htype₂, hnonexp₂, hnotin₂, hin₂, h3₂, h3t₂, hbal₂⟩ :=
    closeExpenses_spec (L₁.accounts.map Prod.fst) L₁ e3₁ hnd₁ hf₁ h3₁ h3t₁ hE₁
  -- The closing loop's expense sum equals total_expense on the original state.
  have hexp₁ : expSum L₁ (L₁.accounts.map Prod.fst) = totalExpenseDE L := by
    rw [← expSum_keys L hnd]
    rw [hkeys₁]
    rw [expSum, expSum]
    congr 1
    apply List.map_congr_left
    intro c hm
    by_cases hc3 : c = "3000"
    · subst hc3
      rw [expTerm_eq L₁ _ e3₁ h3₁, expTerm_eq L _ e3 h3]
      rw [if_neg (by rw [h3t₁]; simp), if_neg (by rw [h3t]; simp)]
    · by_cases hc4 : c = "4000"
      · subst hc4
        rw [expTerm_eq L₁ _ rv₁ h4₁, expTerm_eq L _ rv h4]
        rw [if_neg (by rw [h4t₁]; simp), if_neg (by rw [h4t]; simp)]
      · obtain ⟨a₀, ha₀⟩ :=
          Option.isSome_iff_exists.mp ((alookup_isSome_iff_mem c L.accounts).mpr hm)
        rw [expTerm_eq L₁ c a₀ (hother₁ c a₀ hc3 hc4 ha₀), expTerm_eq L c a₀ ha₀]
  -- The whole first call.
  have hcb : L.close_books = (.ok (rv.balance - totalExpenseDE L), L₂) := by
    simp only [DELedger.close_books]
    rw [hstep1]
    dsimp only
    rw [hrec]
    dsimp only
    rw [hTR]
  rw [hcb]
  dsimp only
  -- Conclusion (2): every Expense account ends at balance 0.
  have hconc2 : ∀ c a', alookup c L₂.accounts = some a' → a'.type = .Expense →
      a'.balance = 0 := by
    intro c a' h hty
    have htc := htype₂ c
    rw [h] at htc
    cases hx : alookup c L₁.accounts with
    | none => rw [hx] at htc; cases htc
    | some a₁ =>
      rw [hx] at htc
      injection htc with htc
      have hty₁ : a₁.type = .Expense := by
        rw [← htc, hty]
      have hmem : c ∈ L₁.accounts.map Prod.fst := alookup_mem_keys hx
      obtain ⟨a'', h'', hb''⟩ := hin₂ c a₁ hmem hx hty₁
      rw [h''] at h
      injection h with h
      rw [h] at hb''
      exact hb''
  -- Conclusion (3): account '4000' ends at balance 0.
  have hrv₂ : alookup "4000" L₂.accounts = some rv₁ := by
    apply hnonexp₂ "4000" rv₁ h4₁
    · rw [h4t₁]
      simp
    · exact h43
  -- Conclusion (6): a second close_books call is a no-op.
  have hTR₂ : totalRevenueDE L₂ = 0 := by
    rw [totalRevenueDE, hrv₂]
    exact h4b₁
  have hnd₂ : (L₂.accounts.map Prod.fst).Nodup := by
    rw [hkeys₂]
    exact hnd₁
  have hTE₂ : totalExpenseDE L₂ = 0 := by
    rw [totalExpenseDE]
    apply List.sum_eq_zero
    intro x hx
    rw [List.mem_map] at hx
    obtain ⟨p, hp, hpx⟩ := hx
    have hlook : alookup p.1 L₂.accounts = some p.2 := alookup_of_mem_nodup hnd₂ hp
    by_cases hty : p.2.type = .Expense
    · rw [← hpx, if_pos hty]
      exact hconc2 p.1 p.2 hlook hty
    · rw [← hpx, if_neg hty]
  have hnoop : L₂.close_books = (.ok 0, L₂) := by
    simp only [DELedger.close_books]
    rw [hTR₂]
    rw [if_neg (by simp)]
    dsimp only
    rw [closeExpenses_noop L₂ hconc2]
    dsimp only
    rw [hTE₂]
    norm_num
  refine ⟨rfl, hconc2, ?_, ?_, ?_, hnoop⟩
  · rw [hrv₂]
    simp [h4b₁]
  · rw [h3₂]
    simp [hbal₂, h3b₁, hexp₁]
    ring
  · intro c a h hty hc4
    have hc3 : c ≠ "3000" := by
      intro hc3
      rw [hc3, h3] at h
      injection h with h
      rw [← h] at hty
      rw [hty] at h3t
      cases h3t
    have h₁ := hother₁ c a hc3 hc4 h
    apply hnonexp₂ c a h₁
    · rw [hty]
      simp
    · exact hc3

/-- The ledger of the C4 counterexample: revenue activity recorded in the
Sales Returns revenue account `'4100'` plus expense activity in COGS. -/
def c4State : DELedger :=
  ((seedLedger.post_transaction "Sale recorded in Sales Returns"
      [⟨"1020", 10000, true⟩, ⟨"4100", 10000, false⟩]).2.post_transaction
    "Record COGS" [⟨"5000", 3000, true⟩, ⟨"1030", 3000, false⟩]).2

/-- C4 counterexample: `close_books` only closes revenue account `'4000'`.
On a ledger with posted revenue activity in `'4100'` (Sales Returns, a
Revenue account) and expense activity, the call succeeds but leaves
`'4100'` at balance 100.00 — not every Revenue account reaches zero, and
Equity does not absorb totalRevenue − totalExpense. -/
theorem C4_counterexample :
    (alookup "4100" c4State.accounts).map (fun a => (a.type, a.balance)) =
      some (AccountType.Revenue, 10000) ∧
    exceptOk (c4State.close_books).1 = true ∧
    (alookup "4100" (c4State.close_books).2.accounts).map (fun a => (a.type, a.balance)) =
      some (AccountType.Revenue, 10000) := by
  refine ⟨by decide, by decide, by decide⟩

/-- The ledger of the C4 witness: the spec's closing scenario — revenue
6000.00 in `'4000'`, expenses 2500.00 (COGS) + 1200.00 (wages) = 3700.00. -/
def c4Witness : DELedger :=
  (((seedLedger.post_transaction "Sale on credit"
      [⟨"1020", 600000, true⟩, ⟨"4000", 600000, false⟩]).2.post_transaction
    "Record COGS" [⟨"5000", 250000, true⟩, ⟨"1030", 250000, false⟩]).2.post_transaction
    "Accrue wages" [⟨"5100", 120000, true⟩, ⟨"2100", 120000, false⟩]).2

/-- C4 witness: the amended theorem at the spec's scenario — net income
2300.00 is returned, Equity ends at 2300.00, and `'4000'` ends at zero. -/
theorem C4_witness :
    (c4Witness.close_books).1 = .ok 230000 ∧
    (alookup "3000" (c4Witness.close_books).2.accounts).map DEAccount.balance =
      some 230000 ∧
    (alookup "4000" (c4Witness.close_books).2.accounts).map DEAccount.balance =
      some 0 := by
  have h := C4_close_books c4Witness
    ⟨"3000", "Equity", .Equity, [], []⟩
    ⟨"4000", "Revenue", .Revenue, [], [(0, 600000)]⟩
    (by decide)
    (show ∀ p ∈ c4Witness.journal, p.1 < c4Witness.nextId by decide)
    (by decide) (by decide) (by decide) (by decide) (by decide) (by decide)
  have hTE : totalExpenseDE c4Witness = 370000 := by decide
  have hrv : (⟨"4000", "Revenue", .Revenue, [], [(0, 600000)]⟩ : DEAccount).balance =
      600000 := by decide
  have he3 : (⟨"3000", "Equity", .Equity, [], []⟩ : DEAccount).balance = 0 := by decide
  rw [hTE, hrv, he3] at h
  rw [show (600000 : ℤ) - 370000 = 230000 by norm_num] at h
  rw [show (0 : ℤ) + 230000 = 230000 by norm_num] at h
  exact ⟨h.1, h.2.2.2.1, h.2.2.1⟩
